import Mathlib

/-!
# Verification of the paper-search retrieval core

A shallow embedding, in Lean 4, of the retrieval core of the `paper-search`
repository (`search_papers.py`, `build_paper_index.py`, `build_embeddings.py`),
together with theorems settling the frozen specification claims.

Modelling conventions:
* Python floats are modelled as exact rationals (`ℚ`).  All float constants in
  the source (0.5, 0.9, 1.2, …) are dyadic/decimal and the quantities compared
  against them are ratios of small integers, so exact rational arithmetic
  agrees with the source's float arithmetic on all realistic inputs.
* Python strings are Lean `String`s; character-level manipulation (the regexes
  of the source) is done on `String.data : List Char`.
* The jieba tokenizer, the query parser built on it, and the sentence-embedding
  model are external collaborators (per the spec, out of scope); they are
  passed as opaque function parameters `tok`, `parse`, `encode`.
* Python `dict`s are association lists preserving insertion order, matching
  dict semantics (first-insertion position, last value wins on rewrite).
* `np.argsort` and Python `set` iteration have unspecified tie/iteration
  order; the embedding determinizes them (stable order of first appearance).
  No theorem below depends on the chosen tie order except where the claim
  itself is about tie order, in which case this is called out explicitly.
-/

namespace PaperSearch

/-! ## Basic character classes (mirroring the source's regexes) -/

/-- CJK unified ideograph range used throughout the source:
regex class lower-4e00 to 9fff. -/
def isCJK (c : Char) : Bool := 0x4e00 ≤ c.toNat && c.toNat ≤ 0x9fff

/-- ASCII letter, the regex class a-zA-Z. -/
def isEnAlpha (c : Char) : Bool :=
  ('a' ≤ c && c ≤ 'z') || ('A' ≤ c && c ≤ 'Z')

/-- ASCII digit (Python backslash-d; non-ASCII digits do not occur in keys). -/
def isDigitCh (c : Char) : Bool := '0' ≤ c && c ≤ '9'

/-- Python whitespace class backslash-s: the six ASCII whitespace characters
plus the two Unicode spaces that occur in practice (NBSP, ideographic space). -/
def pySpace (c : Char) : Bool :=
  c = ' ' || c = '\t' || c = '\n' || c = '\r' ||
  c = '\x0b' || c = '\x0c' || c = ' ' || c = '　'

/-- Word-continuation class of the query/token regexes: a-zA-Z0-9_- . -/
def isWordCh (c : Char) : Bool :=
  isEnAlpha c || isDigitCh c || c = '_' || c = '-'

/-- Python `str.strip()`: drop leading and trailing whitespace (structural,
so it reduces in the kernel, unlike `String.trim`). -/
def stripStr (s : String) : String :=
  ⟨((s.data.dropWhile pySpace).reverse.dropWhile pySpace).reverse⟩

/-! ## List-of-char string primitives (Python `startswith`, `in`, slicing) -/

/-- Python `s.startswith(p)` on code-point lists. -/
def isPrefixL : List Char → List Char → Bool
  | [], _ => true
  | _ :: _, [] => false
  | a :: as, b :: bs => a = b && isPrefixL as bs

/-- Python `p in s` (substring test) on code-point lists. -/
def isInfixL (p : List Char) : List Char → Bool
  | [] => isPrefixL p []
  | c :: cs => isPrefixL p (c :: cs) || isInfixL p cs

/-- Python `p in s` on strings. -/
def isInfixS (p s : String) : Bool := isInfixL p.data s.data

/-- Python `str.lower` (the source only lowercases Latin terms; CJK unaffected). -/
def lowerStr (s : String) : String := String.mk (s.data.map Char.toLower)

/-- Python slicing `s[:n]` by code points. -/
def takeStr (n : ℕ) (s : String) : String := String.mk (s.data.take n)

/-! ## Stable sorting (Python `sorted(..., reverse=True)` / `list.sort`) -/

/-- Insert into a descending-by-key list, after every element of strictly
larger key and before every element of smaller-or-equal key.  Folding this
from the right yields exactly Python's stable descending sort. -/
def insertDescBy {α β : Type} [LinearOrder β] (key : α → β) (x : α) :
    List α → List α
  | [] => [x]
  | y :: ys => if key y ≤ key x then x :: y :: ys else y :: insertDescBy key x ys

/-- Stable descending sort by a rational-valued key: Python
`sorted(l, key=key, reverse=True)` (stable, ties keep original order). -/
def sortDescBy {α β : Type} [LinearOrder β] (key : α → β) (l : List α) : List α :=
  l.foldr (insertDescBy key) []

/-! ## Ordered dictionaries (Python `dict` as an insertion-ordered alist) -/

/-- First value stored under a key. -/
def dictGet {β : Type} (d : List (String × β)) (k : String) : Option β :=
  (d.find? (fun e => e.1 = k)).map (·.2)

/-- Python `d[k] = v` on a key-nodup alist: overwrite in place, else append. -/
def dictSet {β : Type} (d : List (String × β)) (k : String) (v : β) :
    List (String × β) :=
  match d with
  | [] => [(k, v)]
  | e :: es => if e.1 = k then (k, v) :: es else e :: dictSet es k v

/-- Python `if k not in d: d[k] = v` (setdefault-style insert). -/
def dictSetD {β : Type} (d : List (String × β)) (k : String) (v : β) :
    List (String × β) :=
  match d with
  | [] => [(k, v)]
  | e :: es => if e.1 = k then e :: es else e :: dictSetD es k v

/-- Python `d[k] = d.get(k, 0) + v` for the `defaultdict(float)` accumulator. -/
def dictAdd (d : List (String × ℚ)) (k : String) (v : ℚ) :
    List (String × ℚ) :=
  match d with
  | [] => [(k, v)]
  | e :: es => if e.1 = k then (e.1, e.2 + v) :: es else e :: dictAdd es k v

/-- Score read-out of the `defaultdict(float)` accumulator (0 when absent). -/
def scoreOf : List (String × ℚ) → String → ℚ
  | [], _ => 0
  | e :: es, k => if e.1 = k then e.2 else scoreOf es k

/-! ## Document records

`build_paper_index.process_pdf` produces one JSON record per document.  The
fields below are the ones the retrieval core reads.  `tokens` is the
precomputed per-field token map (the builder fills it for exactly
`filename`, `keywords`, `abstract`, `title_extracted`, `folder` and
`zotero_meta`; never for `first_pages_text` or `cn_topics`).  `error` is the
extraction-error marker set by the builder's exception handler. -/

structure Paper where
  filename : String := ""
  folder : String := ""
  titleExtracted : String := ""
  abstract : String := ""
  keywords : String := ""
  firstPagesText : String := ""
  cnTopics : String := ""
  isScannable : Bool := false
  error : Option String := none
  source : String := "local"
  tokens : List (String × List String) := []
deriving DecidableEq, Repr, Inhabited

/-- `paper.get(field, "")` for the raw-text fields read by the scorer.
(`zotero_meta` has no raw-text field in the record — it exists only in the
precomputed token map — so it reads as empty here, as in the source.) -/
def rawText (p : Paper) (field : String) : String :=
  if field = "filename" then p.filename
  else if field = "folder" then p.folder
  else if field = "title_extracted" then p.titleExtracted
  else if field = "abstract" then p.abstract
  else if field = "keywords" then p.keywords
  else if field = "first_pages_text" then p.firstPagesText
  else if field = "cn_topics" then p.cnTopics
  else ""

/-! ## Filename normalization and two-tier deduplication

`build_paper_index.normalize_filename` (identical to the inline `_norm_fn`
of `search_papers.keyword_search`): strip a leading
`(?:论文)?\d+[\.\-\s]+` prefix, then remove ASCII spaces. -/

/-- One attempt of the regex body `\d+[\.\-\s]+` at the head of the list
(maximal-munch is equivalent to the regex's greedy backtracking here because
the digit and separator classes are disjoint). -/
def tryNumPrefix (cs : List Char) : Option (List Char) :=
  let ds := cs.takeWhile isDigitCh
  if ds = [] then none
  else
    let r1 := cs.drop ds.length
    let seps := r1.takeWhile (fun c => c = '.' || c = '-' || pySpace c)
    if seps = [] then none else some (r1.drop seps.length)

/-- `re.sub(r'^(?:论文)?\d+[\.\-\s]+', '', name)`: the optional 论文 literal
is useful only when digits follow it (backtracking cannot succeed otherwise,
since 论 is not a digit). -/
def stripNumPrefix (cs : List Char) : List Char :=
  match tryNumPrefix cs with
  | some r => r
  | none =>
    match cs with
    | '论' :: '文' :: rest => (tryNumPrefix rest).getD cs
    | _ => cs

/-- `normalize_filename` / `_norm_fn`: strip the ordinal prefix, then
`name.replace(' ', '')` (ASCII space only). -/
def normalizeFilename (s : String) : String :=
  String.mk ((stripNumPrefix s.data).filter (fun c => c ≠ ' '))

/-- The final dedup loop of `build_index` (and of `keyword_search`), generic
in how an element exposes its filename: two seen-sets, first wins in both. -/
def dedupFirstByAux {α : Type} (name : α → String) :
    List String → List String → List α → List α
  | _, _, [] => []
  | seenF, seenN, p :: ps =>
    if name p ∈ seenF then dedupFirstByAux name seenF seenN ps
    else if normalizeFilename (name p) ∈ seenN then dedupFirstByAux name seenF seenN ps
    else p :: dedupFirstByAux name (name p :: seenF)
           (normalizeFilename (name p) :: seenN) ps

/-- Entry point of the dedup pass: both seen-sets start empty. -/
def dedupFirstBy {α : Type} (name : α → String) (l : List α) : List α :=
  dedupFirstByAux name [] [] l

/-- The dedup pass `build_index` runs on the collected document list (already
in priority order: local documents precede Zotero-only documents). -/
def dedupPapers (papers : List Paper) : List Paper :=
  dedupFirstBy Paper.filename papers

/-- Specification-side restatement of the dedup policy: keep a document iff
its *normalized* key was not kept before (first-seen-wins).  Tier 1 (identical
raw key) is subsumed because equal raw keys have equal normalized keys. -/
def keepFirstByNormAux {α : Type} (name : α → String) :
    List String → List α → List α
  | _, [] => []
  | seen, p :: ps =>
    if normalizeFilename (name p) ∈ seen then keepFirstByNormAux name seen ps
    else p :: keepFirstByNormAux name (normalizeFilename (name p) :: seen) ps

/-- First-seen-wins by normalized key, from the spec's wording. -/
def keepFirstByNorm {α : Type} (name : α → String) (l : List α) : List α :=
  keepFirstByNormAux name [] l

/-! ## Reciprocal Rank Fusion (`hybrid_search` / `semantic_search`)

A channel contributes `1.0 / (k + rank + 1)` at 0-based enumeration rank,
i.e. `1 / (k + r)` at 1-based rank `r`. -/

/-- 1-based rank of a document in a ranking (`r0` is the rank of the head). -/
def firstRank (fn : String) : List String → ℕ → Option ℕ
  | [], _ => none
  | g :: rest, r => if g = fn then some r else firstRank fn rest (r + 1)

/-- `Σ`-free description of a document's contribution from one ranking:
`1/(k + rank)` at its 1-based rank, 0 if absent. -/
def rrfContrib (k : ℕ) (ranking : List String) (fn : String) : ℚ :=
  match firstRank fn ranking 1 with
  | some r => 1 / ((k : ℚ) + r)
  | none => 0

/-- The accumulation loop `for rank, item in enumerate(channel): scores[fn] += 1/(k+rank+1)`. -/
def addChannelAux (k : ℕ) : List String → ℕ → List (String × ℚ) → List (String × ℚ)
  | [], _, s => s
  | fn :: rest, rank, s =>
    addChannelAux k rest (rank + 1) (dictAdd s fn (1 / ((k : ℚ) + rank + 1)))

/-- One channel's pass over the fused-score accumulator. -/
def addChannelFns (k : ℕ) (fns : List String) (s : List (String × ℚ)) :
    List (String × ℚ) :=
  addChannelAux k fns 0 s

/-- Occurrence-wise contribution of a ranking suffix starting at a given
0-based rank (proof-side companion of `addChannelAux`). -/
def listContrib (k : ℕ) : ℕ → List String → String → ℚ
  | _, [], _ => 0
  | rank, g :: rest, fn =>
    (if g = fn then 1 / ((k : ℚ) + rank + 1) else 0) + listContrib k (rank + 1) rest fn

/-- The fused-score accumulator of `hybrid_search`: primary keyword (k=60),
primary semantic (k=60), cross-lingual keyword (k=100), then for each
auxiliary query its keyword and semantic channels (k=60 each). -/
def rrfFuseScores (kwFns semFns enFns : List String)
    (extraFns : List (List String × List String)) : List (String × ℚ) :=
  let s1 := addChannelFns 60 kwFns []
  let s2 := addChannelFns 60 semFns s1
  let s3 := addChannelFns 100 enFns s2
  extraFns.foldl (fun s pr => addChannelFns 60 pr.2 (addChannelFns 60 pr.1 s)) s3

/-! ## Lexical scoring (`score_paper_keyword`) -/

/-- Per-field token retrieval of `score_paper_keyword`: precomputed tokens
first; otherwise the `first_pages_text` gate (skipped whenever the document
has an abstract or keywords), then query-time tokenization of the raw text
(empty text is skipped). -/
def getFieldTokens (tok : String → List String) (p : Paper) (field : String) :
    Option (Finset String) :=
  match dictGet p.tokens field with
  | some ts => some ts.toFinset
  | none =>
    if field = "first_pages_text" ∧ (p.abstract ≠ "" ∨ p.keywords ≠ "") then none
    else if rawText p field = "" then none
    else some (tok (rawText p field)).toFinset

/-- The `fields` weight table of `score_paper_keyword`, in source order. -/
def fieldWeights : List (String × ℚ) :=
  [("filename", 3), ("keywords", 5), ("abstract", 4), ("title_extracted", 7/2),
   ("first_pages_text", 1), ("folder", 2), ("zotero_meta", 5/2), ("cn_topics", 3)]

/-- Exact-match overlap `query_tokens & text_tokens` for one field. -/
def fieldExact (tok : String → List String) (p : Paper) (qt : Finset String)
    (field : String) : Finset String :=
  match getFieldTokens tok p field with
  | some ts => qt ∩ ts
  | none => ∅

/-- Expansion-only overlap `(expanded_tokens - query_tokens) & text_tokens`. -/
def fieldExpOnly (tok : String → List String) (p : Paper) (qt et : Finset String)
    (field : String) : Finset String :=
  match getFieldTokens tok p field with
  | some ts => (et \ qt) ∩ ts
  | none => ∅

/-- The per-field accumulation loop of `score_paper_keyword`, producing the
base score, the matched-field list (fields with an exact match, in table
order) and the matched-term set.  Written as a right fold; addition,
append and union make it equal to the source's forward loop. -/
def scoreFields (tok : String → List String) (p : Paper) (qt et : Finset String) :
    List (String × ℚ) → ℚ × List String × Finset String
  | [] => (0, [], ∅)
  | (f, w) :: rest =>
    let acc := scoreFields tok p qt et rest
    let ex := fieldExact tok p qt f
    let eo := fieldExpOnly tok p qt et f
    ((ex.card : ℚ) * w * 2 + (eo.card : ℚ) * w * (1/2) + acc.1,
     (if ex ≠ ∅ then [f] else []) ++ acc.2.1,
     ex ∪ eo ∪ acc.2.2)

/-- The fallback-abstract provenance marker tested by the scorer. -/
def fallbackMarker : String := "[兜底提取]"

/-- `score_paper_keyword`: base field scan followed by the multiplicative
adjustments, in source order (the coverage bonus is guarded by
`len(query_tokens) >= 2`). -/
def scorePaperKeyword (tok : String → List String) (p : Paper)
    (qt et : Finset String) : ℚ × List String × Finset String :=
  let base := scoreFields tok p qt et fieldWeights
  let s0 := base.1
  let matched := base.2.1
  let terms := base.2.2
  let s1 := if p.abstract ≠ "" then
      (if ¬ (isInfixS fallbackMarker p.abstract = true) then s0 * (6/5) else s0 * (21/20))
    else s0
  let s2 := if p.keywords ≠ "" then s1 * (11/10) else s1
  let s3 := if 3 ≤ matched.length then s2 * (13/10) else s2
  let s4 := if 2 ≤ qt.card then
      (let cov : ℚ := ((terms ∩ qt).card : ℚ) / (qt.card : ℚ)
       if 9/10 ≤ cov then s3 * 2
       else if 7/10 ≤ cov then s3 * (3/2)
       else if 1/2 ≤ cov then s3 * (6/5)
       else s3)
    else s3
  (s4, matched, terms)

/-! ## Specification-side lexical-score formulas (claim C2 wording) -/

/-- Base sum of the spec formula: over all fields,
`exact * w * 2.0 + expansion_only * w * 0.5`. -/
def specBaseSum (tok : String → List String) (p : Paper) (qt et : Finset String)
    (fields : List (String × ℚ)) : ℚ :=
  (fields.map (fun fw =>
    ((fieldExact tok p qt fw.1).card : ℚ) * fw.2 * 2 +
    ((fieldExpOnly tok p qt et fw.1).card : ℚ) * fw.2 * (1/2))).sum

/-- Number of distinct matched fields ("matched" in the system's own
vocabulary: fields with an exact query-term match, which is what the source
counts in `matched_fields`). -/
def specMatchedFieldCount (tok : String → List String) (p : Paper)
    (qt : Finset String) (fields : List (String × ℚ)) : ℕ :=
  (fields.filter (fun fw => fieldExact tok p qt fw.1 ≠ ∅)).length

/-- Union of all matched terms (exact and expansion-only) across fields. -/
def specMatchedTerms (tok : String → List String) (p : Paper)
    (qt et : Finset String) (fields : List (String × ℚ)) : Finset String :=
  (fields.map (fun fw => fieldExact tok p qt fw.1 ∪ fieldExpOnly tok p qt et fw.1)).foldr
    (· ∪ ·) ∅

/-- Coverage: fraction of the original query terms matched anywhere. -/
def specCoverage (tok : String → List String) (p : Paper) (qt et : Finset String) : ℚ :=
  (((specMatchedTerms tok p qt et fieldWeights) ∩ qt).card : ℚ) / (qt.card : ℚ)

/-- The spec's coverage multiplier: ×2.0 at ≥90%, ×1.5 at ≥70%, ×1.2 at ≥50%. -/
def covMult (c : ℚ) : ℚ :=
  if 9/10 ≤ c then 2 else if 7/10 ≤ c then 3/2 else if 1/2 ≤ c then 6/5 else 1

/-- Abstract multiplier: ×1.2 for a non-fallback abstract, ×1.05 for a
fallback abstract, ×1 without an abstract. -/
def abstractMult (p : Paper) : ℚ :=
  if p.abstract ≠ "" then
    (if ¬ (isInfixS fallbackMarker p.abstract = true) then 6/5 else 21/20)
  else 1

/-- Keyword-presence multiplier ×1.1. -/
def keywordsMult (p : Paper) : ℚ := if p.keywords ≠ "" then 11/10 else 1

/-- Field-diversity multiplier ×1.3 at three or more matched fields. -/
def diversityMult (tok : String → List String) (p : Paper) (qt : Finset String) : ℚ :=
  if 3 ≤ specMatchedFieldCount tok p qt fieldWeights then 13/10 else 1

/-- Claim C2's lexical-score formula, exactly as worded: the coverage bonus
is applied unconditionally (no guard on the number of query tokens). -/
def specLexScore (tok : String → List String) (p : Paper) (qt et : Finset String) : ℚ :=
  specBaseSum tok p qt et fieldWeights * abstractMult p * keywordsMult p *
    diversityMult tok p qt * covMult (specCoverage tok p qt et)

/-- The amended formula: identical except that the coverage bonus applies
only when the query has at least two distinct tokens (the source's guard). -/
def specLexScoreAmended (tok : String → List String) (p : Paper)
    (qt et : Finset String) : ℚ :=
  specBaseSum tok p qt et fieldWeights * abstractMult p * keywordsMult p *
    diversityMult tok p qt *
    (if 2 ≤ qt.card then covMult (specCoverage tok p qt et) else 1)

/-- The formula with no coverage factor at all (claim C9). -/
def specLexScoreNoCov (tok : String → List String) (p : Paper)
    (qt et : Finset String) : ℚ :=
  specBaseSum tok p qt et fieldWeights * abstractMult p * keywordsMult p *
    diversityMult tok p qt

/-- "No field matched" in the inclusive sense: no exact and no
expansion-only match in any field. -/
def noFieldMatch (tok : String → List String) (p : Paper) (qt et : Finset String) : Prop :=
  ∀ fw ∈ fieldWeights, fieldExact tok p qt fw.1 = ∅ ∧ fieldExpOnly tok p qt et fw.1 = ∅

/-! ## Cross-lingual bridge: translation tables

`CN_TO_EN_QUERY` in declaration order.  The source's dict literal writes the
key 水文模型 twice; per Python dict semantics the entry keeps its first
position and the second (later) value, `"hydrological model SWAT VIC"`. -/

def cnToEnTable : List (List Char × String) :=
  [("气候因子".data, "climate"),
   ("物候".data, "phenology phenological"),
   ("物候变化".data, "phenology phenological"),
   ("蒸散发".data, "evapotranspiration transpiration"),
   ("蒸散".data, "evapotranspiration"),
   ("径流".data, "runoff streamflow discharge"),
   ("水文效应".data, "hydrological hydrology streamflow runoff evapotranspiration"),
   ("水文响应".data, "hydrological response"),
   ("水文".data, "hydrological hydrology"),
   ("水循环".data, "water cycle hydrological"),
   ("气候变化".data, "climate change warming"),
   ("生长季".data, "growing season"),
   ("生长季延长".data, "growing season lengthening"),
   ("返青期".data, "spring greenup"),
   ("返青".data, "greenup green-up"),
   ("枯黄期".data, "autumn senescence"),
   ("枯黄".data, "senescence"),
   ("温度".data, "temperature warming"),
   ("降水".data, "precipitation rainfall"),
   ("湿度".data, "humidity"),
   ("森林".data, "forest"),
   ("植被".data, "vegetation"),
   ("干旱".data, "drought"),
   ("归因".data, "attribution"),
   ("遥感".data, "remote sensing satellite NDVI"),
   ("碳循环".data, "carbon cycle GPP"),
   ("水文模型".data, "hydrological model SWAT VIC"),
   ("影响".data, "effect impact"),
   ("机制".data, "mechanism"),
   ("气候驱动".data, "climate forcing"),
   ("土壤水分".data, "soil moisture"),
   ("响应".data, "response"),
   ("趋势".data, "trend"),
   ("变暖".data, "warming"),
   ("增加".data, "increase"),
   ("减少".data, "decrease"),
   ("模拟".data, "simulation"),
   ("冠层".data, "canopy"),
   ("叶面积".data, "leaf area LAI"),
   ("碳".data, "carbon GPP"),
   ("产水量".data, "water yield"),
   ("积雪".data, "snow snowpack"),
   ("草地".data, "grassland"),
   ("农田".data, "cropland"),
   ("天然植被".data, "natural vegetation"),
   ("人工植被".data, "planted artificial vegetation"),
   ("天然林".data, "natural forest"),
   ("人工林".data, "planted forest plantation"),
   ("造林".data, "afforestation reforestation"),
   ("退耕还林".data, "afforestation reforestation"),
   ("划分".data, "classification mapping distinguish"),
   ("分类".data, "classification"),
   ("制图".data, "mapping"),
   ("识别".data, "identification detection"),
   ("生态水文".data, "ecohydrology ecohydrological"),
   ("流域".data, "basin watershed catchment"),
   ("高原".data, "plateau"),
   ("青藏高原".data, "Tibetan Plateau"),
   ("黄土高原".data, "Loess Plateau"),
   ("海河".data, "Haihe"),
   ("黄河".data, "Yellow River"),
   ("长江".data, "Yangtze"),
   ("华北".data, "North China"),
   ("东北".data, "Northeast China"),
   ("西北".data, "Northwest China")]

/-- `_QUERY_TEMPLATES` in declaration order. -/
def queryTemplates : List (String × String) :=
  [("物候变化的水文效应", "phenology growing season evapotranspiration hydrology"),
   ("物候变化水文效应", "phenology growing season evapotranspiration hydrology"),
   ("气候因子对物候的影响", "climate temperature precipitation phenology"),
   ("气候因子物候影响", "climate temperature precipitation phenology"),
   ("气候变化生长季蒸散发", "climate change growing season evapotranspiration"),
   ("生长季延长蒸散发增加", "growing season lengthening evapotranspiration increase"),
   ("物候对水文的影响", "phenology evapotranspiration streamflow hydrology"),
   ("物候对径流的影响", "phenology runoff streamflow discharge"),
   ("植被物候变化", "vegetation phenology change"),
   ("春季物候提前", "spring phenology advance earlier greenup"),
   ("秋季物候推迟", "autumn phenology delay senescence"),
   ("气候变化对植被的影响", "climate change vegetation response"),
   ("物候遥感反演", "phenology remote sensing satellite NDVI"),
   ("蒸散发归因分析", "evapotranspiration attribution climate vegetation"),
   ("水文模型模拟", "hydrological model simulation"),
   ("植被变化水文响应", "vegetation change hydrological response runoff"),
   ("考虑物候的水文模型", "phenology hydrological model SWAT ecohydrology vegetation"),
   ("水文模型中的物候参数", "phenology parameter hydrological model growing season LAI"),
   ("天然植被与人工植被划分", "natural vegetation planted forest classification mapping"),
   ("天然林人工林识别", "natural forest planted forest classification mapping distinguish")]

/-! ## Cross-lingual bridge: translation functions -/

/-- CJK punctuation stripped by both query normalizers:
，。、：；？！ the four curly quotes （） ( ). -/
def isCnPunct (c : Char) : Bool :=
  c = '，' || c = '。' || c = '、' || c = '：' || c = '；' || c = '？' || c = '！' ||
  c = '“' || c = '”' || c = '‘' || c = '’' || c = '（' || c = '）' ||
  c = '(' || c = ')'

/-- Strip class of `_translate_query` (whitespace and punctuation). -/
def stripTemplateChar (c : Char) : Bool := pySpace c || isCnPunct c

/-- Strip class of `_translate_query_wordlevel`: additionally the function
words 的与和对在于中. -/
def stripWordChar (c : Char) : Bool :=
  stripTemplateChar c || c = '的' || c = '与' || c = '和' || c = '对' ||
  c = '在' || c = '于' || c = '中'

/-- `q_norm` of `_translate_query_wordlevel`. -/
def normWordlevel (q : String) : List Char :=
  q.data.filter (fun c => !stripWordChar c)

/-- `q_norm` of `_translate_query`. -/
def normTemplate (q : String) : List Char :=
  q.data.filter (fun c => !stripTemplateChar c)

/-- `total_cn_chars`: CJK code points of the normalized query. -/
def totalCnChars (q : String) : ℕ := (normWordlevel q).countP isCJK

/-- First table key (in the given key order) that is a prefix of the text.
Keys are non-empty in both tables; the emptiness guard only makes the loop's
progress explicit (Python would not terminate on an empty key). -/
def wordMatchStep (keys : List (List Char × String)) (t : List Char) :
    Option (List Char × String) :=
  keys.find? (fun kv => !kv.1.isEmpty && isPrefixL kv.1 t)

/-- The longest-match translation loop shared by `_translate_query_wordlevel`
and the term phase of `_translate_query`: consume a table key (counting its
characters as translated), else pass through an ASCII-letter run, else skip
one character.  `parts` collects first occurrences of emitted strings
(the `seen` set).  Fuel is the remaining text length; every step consumes at
least one character, so it never runs out. -/
def wordLoopAux (keys : List (List Char × String)) :
    ℕ → List Char → List String → ℕ → List String × ℕ
  | 0, _, parts, tc => (parts, tc)
  | _ + 1, [], parts, tc => (parts, tc)
  | fuel + 1, c :: cs, parts, tc =>
    match wordMatchStep keys (c :: cs) with
    | some kv =>
      wordLoopAux keys fuel ((c :: cs).drop kv.1.length)
        (if kv.2 ∈ parts then parts else parts ++ [kv.2]) (tc + kv.1.length)
    | none =>
      let w := (c :: cs).takeWhile isEnAlpha
      if w.isEmpty then wordLoopAux keys fuel cs parts tc
      else
        wordLoopAux keys fuel ((c :: cs).drop w.length)
          (if (String.mk w) ∈ parts then parts else parts ++ [String.mk w]) tc

/-- `sorted_keys = sorted(CN_TO_EN_QUERY.keys(), key=len, reverse=True)`:
stable descending sort by key length — ties keep declaration order.  Sorting
the pairs is equivalent to sorting the keys because the key determines the
value in the (deduplicated) dict. -/
def wordKeysDecl : List (List Char × String) :=
  sortDescBy (fun kv => kv.1.length) cnToEnTable

/-- Lexicographic-ascending comparison on code-point lists (code-point
order, as Python compares strings). -/
def lexLe : List Char → List Char → Bool
  | [], _ => true
  | _ :: _, [] => false
  | a :: as, b :: bs => if a = b then lexLe as bs else decide (a < b)

/-- Insertion into a lex-ascending list (stability irrelevant: distinct keys). -/
def insertLexAscBy {α : Type} (key : α → List Char) (x : α) : List α → List α
  | [] => [x]
  | y :: ys => if lexLe (key x) (key y) then x :: y :: ys else y :: insertLexAscBy key x ys

/-- Lexicographic-ascending sort. -/
def sortLexAscBy {α : Type} (key : α → List Char) (l : List α) : List α :=
  l.foldr (insertLexAscBy key) []

/-- The spec's tie order: decreasing key length, ties broken lexicographically
(obtained by stably length-sorting a lex-ascending list). -/
def wordKeysLex : List (List Char × String) :=
  sortDescBy (fun kv => kv.1.length) (sortLexAscBy (fun kv => kv.1) cnToEnTable)

/-- The word-level loop of `_translate_query_wordlevel` on the normalized
query, parameterized by the key order. -/
def wordPartsWith (keys : List (List Char × String)) (q : String) :
    List String × ℕ :=
  wordLoopAux keys (normWordlevel q).length (normWordlevel q) [] 0

/-- `translated_chars` of `_translate_query_wordlevel`. -/
def translatedChars (q : String) : ℕ := (wordPartsWith wordKeysDecl q).2

/-- `_translate_query_wordlevel` with an explicit key order: run the loop,
then discard everything if translation coverage is below 50% of the
normalized query's CJK characters. -/
def translateWordlevelWith (keys : List (List Char × String)) (q : String) : String :=
  let pr := wordPartsWith keys q
  if 0 < totalCnChars q ∧ 2 * pr.2 < totalCnChars q then ""
  else String.intercalate " " pr.1

/-- `_translate_query_wordlevel` as the source computes it. -/
def translateWordlevel (q : String) : String :=
  translateWordlevelWith wordKeysDecl q

/-- The same function under the spec's lexicographic tie order. -/
def translateWordlevelLexTies (q : String) : String :=
  translateWordlevelWith wordKeysLex q

/-- A template key with its whitespace removed (`re.sub(r'\s+', '', cn)`). -/
def keyNoSpace (s : String) : List Char :=
  s.data.filter (fun c => !pySpace c)

/-- Phase 1 of `_translate_query`: exact template match, declaration order. -/
def templateExact (qn : List Char) : Option String :=
  (queryTemplates.find? (fun kv => keyNoSpace kv.1 = qn)).map (·.2)

/-- Phase 2 key order: stable descending sort of the templates by raw key
length — ties keep declaration order. -/
def templatesByLenDecl : List (String × String) :=
  sortDescBy (fun kv => kv.1.length) queryTemplates

/-- Phase 2 of `_translate_query`: first (in the given order) template whose
normalized key *contains* the normalized query. -/
def templateInfix (tmpls : List (String × String)) (qn : List Char) : Option String :=
  (tmpls.find? (fun kv => isInfixL qn (keyNoSpace kv.1))).map (·.2)

/-- `_translate_query` parameterized by the template order and the term-table
key order: exact template, containing template, then the word-level
longest-match loop (no coverage gate here). -/
def translateQueryWith (tmpls : List (String × String))
    (keys : List (List Char × String)) (q : String) : String :=
  let qn := normTemplate q
  match templateExact qn with
  | some en => en
  | none =>
    match templateInfix tmpls qn with
    | some en => en
    | none => String.intercalate " " (wordLoopAux keys qn.length qn [] 0).1

/-- `_translate_query` as the source computes it. -/
def translateQuery (q : String) : String :=
  translateQueryWith templatesByLenDecl wordKeysDecl q

/-- The same function under the spec's lexicographic tie order (both the
template table and the term table). -/
def translateQueryLexTies (q : String) : String :=
  translateQueryWith
    (sortDescBy (fun kv => kv.1.length)
      (sortLexAscBy (fun kv => kv.1.data) queryTemplates))
    wordKeysLex q

/-- `_is_chinese_query`. -/
def isChineseQuery (q : String) : Bool := q.data.any isCJK

/-! ## Topic expansion (`TOPIC_EXPANSIONS` / `expand_query`) -/

def topicExpansions : List (String × List String) :=
  [("物候", ["phenology", "phenological", "物候", "SOS", "EOS", "LOS", "返青", "枯黄", "生长季",
             "green-up", "greenup", "senescence", "growing season", "Double Logistic", "TIMESAT",
             "spring onset", "autumn", "dormancy", "leaf onset", "leaf-out", "返青期", "枯黄期",
             "物候期", "物候变化"]),
   ("水文", ["hydrological", "hydrology", "水文", "径流", "runoff", "streamflow", "discharge",
             "产流", "产水", "water yield", "baseflow", "基流", "洪水", "flood", "枯水",
             "水循环", "water cycle", "水量平衡", "water balance", "水文效应", "水文模型"]),
   ("蒸散", ["evapotranspiration", "ET", "蒸散", "蒸发", "PET", "AET", "Penman", "PML",
             "MODIS ET", "MOD16", "transpiration", "蒸腾", "GLEAM", "蒸散发"]),
   ("SWAT", ["SWAT", "swat", "SWAT+", "soil water assessment", "HRU", "SWAT-CUP",
             "SUFI-2", "子流域"]),
   ("遥感", ["remote sensing", "遥感", "NDVI", "LAI", "EVI", "MODIS", "Landsat", "sentinel",
             "卫星", "satellite", "GEE", "Google Earth Engine", "遥感反演"]),
   ("气候变化", ["climate change", "气候变化", "气候变暖", "global warming", "temperature",
                 "precipitation", "降水", "气温", "CMIP", "RCP", "SSP", "变暖",
                 "干旱", "drought", "极端气候", "extreme climate"]),
   ("气候因子", ["climate factor", "climate variable", "climatic variable", "气候因子",
                 "temperature", "precipitation", "humidity", "vapor pressure deficit", "VPD",
                 "radiation", "solar radiation", "wind", "wind speed", "photoperiod",
                 "温度", "降水", "湿度", "辐射", "风速", "气温", "气候驱动", "climate driver"]),
   ("水文效应", ["hydrological effect", "hydrological impact", "水文效应", "水文影响",
                 "evapotranspiration", "蒸散发", "runoff", "径流", "streamflow",
                 "water yield", "产水量", "water cycle", "水循环"]),
   ("植被", ["vegetation", "植被", "forest", "草地", "grassland", "灌木", "shrub", "覆被",
             "land cover", "land use", "LUCC", "greening", "绿化", "植被覆盖",
             "NDVI", "植被恢复", "退耕还林", "造林", "afforestation"]),
   ("归因", ["attribution", "归因", "贡献", "contribution", "驱动", "driver", "影响因素",
             "sensitivity", "elasticity", "弹性", "Budyko", "分离", "decomposition", "归因分析"]),
   ("土壤", ["soil", "土壤", "soil moisture", "土壤水", "infiltration", "入渗", "土壤侵蚀",
             "soil erosion", "RUSLE", "USLE", "土壤有机碳", "SOC"]),
   ("生态流量", ["ecological flow", "生态流量", "环境流量", "e-flow", "minimum flow",
                 "最小生态需水", "生态需水", "生态基流"]),
   ("碳循环", ["carbon", "碳", "NPP", "GPP", "NEP", "固碳", "碳汇", "carbon sequestration",
               "Biome-BGC", "carbon cycle", "碳储量", "碳循环", "净初级生产力"]),
   ("模型", ["model", "模型", "simulation", "模拟", "calibration", "率定", "validation", "验证",
             "NSE", "RMSE", "参数", "不确定性", "uncertainty"]),
   ("生态水文", ["ecohydrology", "eco-hydrology", "生态水文", "水文生态",
                 "vegetation-hydrology", "植被水文", "水文效应"]),
   ("海河", ["海河", "Hai River", "Haihe", "华北", "North China"]),
   ("黄土高原", ["黄土高原", "Loess Plateau", "黄土", "loess", "黄河", "Yellow River"]),
   ("随机森林", ["random forest", "随机森林", "machine learning", "机器学习", "SHAP",
                 "XGBoost", "neural network", "deep learning", "深度学习", "CNN", "LSTM"]),
   ("Budyko", ["Budyko", "水热耦合", "干燥度", "aridity index", "蒸散比",
               "evaporative index", "水量平衡", "弹性系数"]),
   ("干旱", ["drought", "干旱", "SPEI", "SPI", "PDSI", "干旱指数", "干旱事件",
             "干旱胁迫", "水分胁迫", "water stress"])]

/-- Inner loop body of `expand_query`: one query term against one topic row.
On a hit (case-insensitive synonym membership, or the term contained in the
topic label) union in the lowercased synonyms and record the topic once. -/
def expandStep (term : String) (acc : Finset String × List String)
    (row : String × List String) : Finset String × List String :=
  if lowerStr term ∈ row.2.map lowerStr ∨ isInfixS term row.1 = true then
    (acc.1 ∪ (row.2.map lowerStr).toFinset,
     if row.1 ∈ acc.2 then acc.2 else acc.2 ++ [row.1])
  else acc

/-- `expand_query`: start from the query terms (lowercased and original
case), then run every term against every topic row in table order.
Returns the expanded term set and the matched-topic list. -/
def expandQuery (terms : List String) : Finset String × List String :=
  terms.foldl (fun acc term => topicExpansions.foldl (expandStep term) acc)
    ((terms.map lowerStr).toFinset ∪ terms.toFinset, [])

/-! ## Query parsing (the ASCII fragment of `parse_query`)

`parse_query` extracts English words with the regex
`[a-zA-Z][a-zA-Z0-9_-]+` and segments CJK runs with jieba.  The source only
calls it on caller queries (jieba: modelled opaquely as the `parse`
parameter) and on the cross-lingual channel's translated query, which is
pure ASCII (table values and passed-through letter runs), so for the latter
the regex fragment below is the whole function. -/

def parseEnAux : ℕ → List Char → List String
  | 0, _ => []
  | _ + 1, [] => []
  | fuel + 1, c :: cs =>
    if isEnAlpha c then
      (let run := cs.takeWhile isWordCh
       if run.isEmpty then parseEnAux fuel cs
       else String.mk (c :: run) :: parseEnAux fuel (cs.drop run.length))
    else parseEnAux fuel cs

/-- English-word extraction of `parse_query` (for ASCII-only input). -/
def parseQueryEn (s : String) : List String := parseEnAux s.data.length s.data

/-! ## Keyword search (`keyword_search`) -/

/-- One scored search result of the keyword channel. -/
structure KwItem where
  score : ℚ
  matched : List String
  terms : Finset String
  paper : Paper
deriving DecidableEq

/-- The per-paper filter and scoring step of `keyword_search`'s main loop:
folder hard filter, the non-retrievable flag, the attachment-type denylist
(发明专利 / 专著 in the filename), the optional fallback-abstract filter;
papers scoring 0 are dropped. -/
def kwScoreOne (tok : String → List String) (qt et : Finset String)
    (ff : Option String) (efb : Bool) (p : Paper) : Option KwItem :=
  if (ff.elim false (fun f => !isInfixS f p.folder)) = true then none
  else if p.isScannable then none
  else if isInfixS "发明专利" p.filename || isInfixS "专著" p.filename then none
  else if efb && isPrefixL "[兜底提取]".data p.abstract.data then none
  else
    let r := scorePaperKeyword tok p qt et
    if 0 < r.1 then some ⟨r.1, r.2.1, r.2.2, p⟩ else none

/-- The query-token set of `keyword_search`: lowercased terms plus the
original-case terms. -/
def kwQueryTokens (parse : String → List String) (query : String) : Finset String :=
  ((parse query).map lowerStr).toFinset ∪ (parse query).toFinset

/-- The expanded-token set of `keyword_search`. -/
def kwExpanded (parse : String → List String) (query : String) : Finset String :=
  (expandQuery (parse query)).1

/-- `keyword_search`, with the jieba-based `parse_query` passed in as an
opaque parameter: parse, build the query-token set (lowercased plus
original case), expand, score every paper, stable-sort by score descending,
dedup by raw and normalized filename, truncate.  Returns the results and
the matched topics. -/
def keywordSearchFull (tok parse : String → List String) (query : String)
    (papers : List Paper) (topN : ℕ) (ff : Option String) (efb : Bool) :
    List KwItem × List String :=
  let scored := papers.filterMap
    (kwScoreOne tok (kwQueryTokens parse query) (kwExpanded parse query) ff efb)
  let sorted := sortDescBy KwItem.score scored
  ((dedupFirstBy (fun it => it.paper.filename) sorted).take topN,
   (expandQuery (parse query)).2)

/-! ## Semantic search (`semantic_search`)

The persisted vector snapshot is a parallel pair of filename and embedding
arrays; the sentence-embedding model is the opaque `encode` parameter.
`np.argsort` ties and Python-set iteration order are determinized (stable /
first-appearance); no claim below depends on that choice. -/

structure EmbIndex where
  filenames : List String
  embeddings : List (List ℚ)
deriving DecidableEq

/-- The snapshot as (filename, vector) rows. -/
def embRows (idx : EmbIndex) : List (String × List ℚ) :=
  idx.filenames.zip idx.embeddings

/-- Cosine similarity of pre-normalized vectors: the dot product. -/
def dotQ (u v : List ℚ) : ℚ := (List.zipWith (fun a b => a * b) u v).sum

/-- Last-wins keyed lookup (Python `for x in l: d[name(x)] = x`). -/
def lookupLastBy {α : Type} (name : α → String) (l : List α) (fn : String) :
    Option α :=
  l.reverse.find? (fun x => name x = fn)

/-- `fn_to_paper` of `semantic_search`. -/
def fnToPaper (papers : List Paper) (fn : String) : Option Paper :=
  lookupLastBy Paper.filename papers fn

/-- `fn_to_emb_idx` composed with the embedding array (dict comprehension:
last occurrence wins). -/
def fnToEmb (idx : EmbIndex) (fn : String) : Option (List ℚ) :=
  (lookupLastBy Prod.fst (embRows idx) fn).map (·.2)

/-- The `skip_fns` set of `semantic_search`: non-retrievable documents, the
attachment denylist, and folder-filter mismatches. -/
def semSkip (papers : List Paper) (ff : Option String) (fn : String) : Bool :=
  papers.any (fun p => p.filename = fn &&
    (p.isScannable || isInfixS "发明专利" p.filename || isInfixS "专著" p.filename ||
     ff.elim false (fun f => !isInfixS f p.folder)))

/-- The per-query ranking loop: walk similarities in descending order, skip
filtered or unknown filenames, stop at the similarity floor 0.1, assign
1-based ranks. -/
def buildRankingAux (papers : List Paper) (ff : Option String) :
    List (String × ℚ) → ℕ → List (String × ℕ)
  | [], _ => []
  | e :: rest, rank =>
    if semSkip papers ff e.1 || (fnToPaper papers e.1).isNone then
      buildRankingAux papers ff rest rank
    else if e.2 < 1/10 then []
    else (e.1, rank + 1) :: buildRankingAux papers ff rest (rank + 1)

/-- One query's semantic ranking (descending similarity, floor 0.1). -/
def buildRanking (papers : List Paper) (ff : Option String)
    (sims : List (String × ℚ)) : List (String × ℕ) :=
  buildRankingAux papers ff (sortDescBy Prod.snd sims) 0

/-- The bilingual query list: the original query, plus its template/term
translation when that is non-trivial and differs from the original. -/
def semanticQueries (query : String) : List String :=
  let enQ := translateQuery query
  if stripStr enQ ≠ "" ∧ enQ ≠ query then [query, enQ] else [query]

/-- `all_rankings`: one ranking per embedded query. -/
def semanticRankings (encode : String → List ℚ) (idx : EmbIndex)
    (papers : List Paper) (query : String) (ff : Option String) :
    List (List (String × ℕ)) :=
  (semanticQueries query).map (fun q =>
    buildRanking papers ff ((embRows idx).map (fun r => (r.1, dotQ r.2 (encode q)))))

/-- First-appearance deduplication (determinizing `all_fns`, a Python set). -/
def firstDedup : List String → List String
  | [] => []
  | a :: l => a :: firstDedup (l.filter (fun b => b ≠ a))
termination_by l => l.length
decreasing_by
  simp only [List.length_cons]
  exact Nat.lt_succ_of_le (List.length_filter_le _ _)

/-- RRF (k=30) over the per-query rankings. -/
def rrf30 (rankings : List (List (String × ℕ))) (fn : String) : ℚ :=
  (rankings.map (fun rk =>
    match rk.find? (fun e => e.1 = fn) with
    | some e => 1 / ((30 : ℚ) + e.2)
    | none => 0)).sum

/-- `semantic_search` after the snapshot/model loads: rank per query, fuse
with RRF (k=30), sort by fused score, and report each result with the raw
dot-product similarity of the *primary* query (`sims_cn[emb_idx]`). -/
def semanticSearchCore (encode : String → List ℚ) (idx : EmbIndex)
    (papers : List Paper) (query : String) (topN : ℕ) (ff : Option String) :
    List (ℚ × Paper) :=
  let rankings := semanticRankings encode idx papers query ff
  let fns := firstDedup ((rankings.map (fun rk => rk.map Prod.fst)).flatten)
  let scored := fns.map (fun fn => (fn, rrf30 rankings fn))
  let sortedFns := (sortDescBy Prod.snd scored).map Prod.fst
  let q0 := encode query
  (sortedFns.filterMap (fun fn =>
    (fnToPaper papers fn).map (fun p =>
      ((fnToEmb idx fn).elim 0 (fun v => dotQ v q0), p)))).take topN

/-! ## Hybrid search (`hybrid_search`) -/

/-- Channel-3 of `hybrid_search`: for a Chinese query, run the keyword scorer
over the word-level translation; an empty (gated) translation disables the
channel. -/
def crossLingualResults (tok : String → List String) (query : String)
    (papers : List Paper) (ff : Option String) (efb : Bool) : List KwItem :=
  if isChineseQuery query then
    (let enq := translateWordlevel query
     if enq ≠ "" ∧ stripStr enq ≠ "" then
       (keywordSearchFull tok parseQueryEn enq papers 200 ff efb).1
     else [])
  else []

/-- The provenance entry stored in `paper_data`. -/
structure ProvEntry where
  matched : List String
  terms : Finset String
  paper : Paper
  kwScore : ℚ
deriving DecidableEq

/-- Out-of-dictionary default (unreachable: every fused filename also has a
provenance entry; Python would raise KeyError there). -/
def defaultEntry (fn : String) : ProvEntry :=
  ⟨[], ∅, { filename := fn }, 0⟩

/-- One displayed hybrid result. -/
structure HybridItem where
  paper : Paper
  rrfScore : ℚ
  kwScore : ℚ
  semSim : ℚ
  kwRank : ℤ
  semRank : ℤ
  matchedFields : List String
  matchedTerms : Finset String
deriving DecidableEq

/-- `paper_data`, built in channel order: primary keyword (unconditional
set), then set-if-absent for the semantic, cross-lingual and auxiliary
channels. -/
def provData (kwItems : List KwItem) (semPairs : List (ℚ × Paper))
    (enItems : List KwItem)
    (extra : List (List KwItem × List (ℚ × Paper))) : List (String × ProvEntry) :=
  let d1 := kwItems.foldl
    (fun d it => dictSet d it.paper.filename ⟨it.matched, it.terms, it.paper, it.score⟩) []
  let d2 := semPairs.foldl
    (fun d pr => dictSetD d pr.2.filename ⟨["semantic"], ∅, pr.2, 0⟩) d1
  let d3 := enItems.foldl
    (fun d it => dictSetD d it.paper.filename ⟨it.matched, it.terms, it.paper, it.score⟩) d2
  extra.foldl (fun d pr =>
    pr.2.foldl (fun da p2 => dictSetD da p2.2.filename ⟨["semantic"], ∅, p2.2, 0⟩)
      (pr.1.foldl
        (fun db it => dictSetD db it.paper.filename ⟨it.matched, it.terms, it.paper, it.score⟩)
        d)) d3

/-- Assemble the displayed record for one fused filename: provenance from
the first channel that produced the document, the fused score, the best
semantic similarity across all semantic channels, and the 1-based ranks in
the primary keyword/semantic channels (−1 if absent). -/
def buildHybridItem (scores : List (String × ℚ)) (data : List (String × ProvEntry))
    (kwItems : List KwItem) (semPairs allSem : List (ℚ × Paper)) (fn : String) :
    HybridItem :=
  let e := (dictGet data fn).getD (defaultEntry fn)
  { paper := e.paper
    rrfScore := scoreOf scores fn
    kwScore := e.kwScore
    semSim := allSem.foldl (fun m pr => if pr.2.filename = fn then max m pr.1 else m) 0
    kwRank := (kwItems.findIdx? (fun it => it.paper.filename = fn)).elim (-1) (fun i => (i : ℤ) + 1)
    semRank := (semPairs.findIdx? (fun pr => pr.2.filename = fn)).elim (-1) (fun i => (i : ℤ) + 1)
    matchedFields := e.matched
    matchedTerms := e.terms }

/-- The auxiliary-query channels: each non-blank extra query (stripped) runs
its own keyword and semantic channels. -/
def hybridExtraChannels (tok parse : String → List String)
    (encode : String → List ℚ) (idx : EmbIndex) (papers : List Paper)
    (ff : Option String) (efb : Bool) (extraQueries : List String) :
    List (List KwItem × List (ℚ × Paper)) :=
  ((extraQueries.map stripStr).filter (fun eq => eq ≠ "")).map (fun eq =>
    ((keywordSearchFull tok parse eq papers 200 ff efb).1,
     semanticSearchCore encode idx papers eq 200 ff))

/-- The four channel blocks of one hybrid search. -/
def hybridChannels (tok parse : String → List String)
    (encode : String → List ℚ) (idx : EmbIndex) (papers : List Paper)
    (query : String) (ff : Option String) (efb : Bool)
    (extraQueries : List String) :
    (List KwItem × List String) × List (ℚ × Paper) × List KwItem ×
      List (List KwItem × List (ℚ × Paper)) :=
  (keywordSearchFull tok parse query papers 200 ff efb,
   semanticSearchCore encode idx papers query 200 ff,
   crossLingualResults tok query papers ff efb,
   hybridExtraChannels tok parse encode idx papers ff efb extraQueries)

/-- The fused-score accumulator of one hybrid search. -/
def hybridScoresOf (tok parse : String → List String)
    (encode : String → List ℚ) (idx : EmbIndex) (papers : List Paper)
    (query : String) (ff : Option String) (efb : Bool)
    (extraQueries : List String) : List (String × ℚ) :=
  let ch := hybridChannels tok parse encode idx papers query ff efb extraQueries
  rrfFuseScores (ch.1.1.map (fun it => it.paper.filename))
    (ch.2.1.map (fun pr => pr.2.filename))
    (ch.2.2.1.map (fun it => it.paper.filename))
    (ch.2.2.2.map (fun pr =>
      (pr.1.map (fun it => it.paper.filename), pr.2.map (fun p2 => p2.2.filename))))

/-- All fused results in final order (before the `[:top_n]` truncation). -/
def hybridAllItems (tok parse : String → List String)
    (encode : String → List ℚ) (idx : EmbIndex) (papers : List Paper)
    (query : String) (ff : Option String) (efb : Bool)
    (extraQueries : List String) : List HybridItem :=
  let ch := hybridChannels tok parse encode idx papers query ff efb extraQueries
  let scores := hybridScoresOf tok parse encode idx papers query ff efb extraQueries
  let data := provData ch.1.1 ch.2.1 ch.2.2.1 ch.2.2.2
  let allSem := ch.2.1 ++ (ch.2.2.2.map Prod.snd).flatten
  ((sortDescBy Prod.snd scores).map Prod.fst).map
    (buildHybridItem scores data ch.1.1 ch.2.1 allSem)

/-- `hybrid_search`: the fused ranking truncated to `top_n`, plus the matched
topics of the primary keyword channel. -/
def hybridSearchCore (tok parse : String → List String)
    (encode : String → List ℚ) (idx : EmbIndex) (papers : List Paper)
    (query : String) (topN : ℕ) (ff : Option String) (efb : Bool)
    (extraQueries : List String) : List HybridItem × List String :=
  ((hybridAllItems tok parse encode idx papers query ff efb extraQueries).take topN,
   (keywordSearchFull tok parse query papers 200 ff efb).2)

/-! ## Similarity recommender (`find_similar`) -/

/-- Target resolution: first paper whose (lowercased) filename contains the
query string. -/
def resolveTarget (queryName : String) (papers : List Paper) : Option Paper :=
  papers.find? (fun p => isInfixL (lowerStr queryName).data (lowerStr p.filename).data)

/-- The synthetic query: keyword field plus a 200-character abstract prefix,
falling back to a 500-character prefix of the first-page text. -/
def similarSearchText (target : Paper) : String :=
  let s := target.keywords ++ " " ++ takeStr 200 target.abstract
  if stripStr s = "" then takeStr 500 target.firstPagesText else s

/-- `find_similar`: hybrid search with `top_n + 1`, remove the target by
filename, truncate to `top_n`.  Returns results, topics and the resolved
target filename. -/
def findSimilarCore (tok parse : String → List String)
    (encode : String → List ℚ) (idx : EmbIndex) (papers : List Paper)
    (queryName : String) (topN : ℕ) : List HybridItem × List String × String :=
  match resolveTarget queryName papers with
  | none => ([], [], queryName)
  | some target =>
    let hr := hybridSearchCore tok parse encode idx papers
      (similarSearchText target) (topN + 1) none false []
    ((hr.1.filter (fun r => r.paper.filename ≠ target.filename)).take topN,
     hr.2, target.filename)

/-!
# Lemmas

Everything below is proof; the embedding above is complete.
-/

/-! ## The fused-score accumulator -/

theorem scoreOf_dictAdd (d : List (String × ℚ)) (k g : String) (v : ℚ) :
    scoreOf (dictAdd d k v) g = scoreOf d g + if g = k then v else 0 := by
  induction d with
  | nil =>
    by_cases h : k = g
    · simp [dictAdd, scoreOf, h]
    · have h2 : ¬ g = k := fun hg => h hg.symm
      simp [dictAdd, scoreOf, h, h2]
  | cons e es ih =>
    obtain ⟨a, b⟩ := e
    by_cases hek : a = k
    · subst hek
      by_cases heg : a = g
      · subst heg
        simp [dictAdd, scoreOf]
      · have h2 : ¬ g = a := fun h => heg h.symm
        simp [dictAdd, scoreOf, heg, h2]
    · by_cases heg : a = g
      · subst heg
        have h2 : ¬ a = k := hek
        simp [dictAdd, scoreOf, hek, fun h : a = k => hek h]
      · simp [dictAdd, scoreOf, hek, heg, ih]

theorem scoreOf_addChannelAux (k : ℕ) (fns : List String) (r : ℕ)
    (s : List (String × ℚ)) (g : String) :
    scoreOf (addChannelAux k fns r s) g = scoreOf s g + listContrib k r fns g := by
  induction fns generalizing r s with
  | nil => simp [addChannelAux, listContrib]
  | cons fn rest ih =>
    simp only [addChannelAux, listContrib]
    rw [ih, scoreOf_dictAdd]
    by_cases h : g = fn
    · subst h
      rw [if_pos rfl]
      ring
    · have h2 : ¬ fn = g := fun h' => h h'.symm
      rw [if_neg h, if_neg h2]
      ring

theorem scoreOf_addChannelFns (k : ℕ) (fns : List String)
    (s : List (String × ℚ)) (g : String) :
    scoreOf (addChannelFns k fns s) g = scoreOf s g + listContrib k 0 fns g :=
  scoreOf_addChannelAux k fns 0 s g

theorem listContrib_of_not_mem (k : ℕ) (g : String) :
    ∀ fns : List String, g ∉ fns → ∀ r : ℕ, listContrib k r fns g = 0 := by
  intro fns
  induction fns with
  | nil => intro _ r; rfl
  | cons fn rest ih =>
    intro h r
    have h1 : ¬ fn = g := fun he => h (he ▸ List.mem_cons_self fn rest)
    have h2 : g ∉ rest := fun hm => h (List.mem_cons_of_mem fn hm)
    show (if fn = g then 1 / ((k : ℚ) + r + 1) else 0) + listContrib k (r + 1) rest g = 0
    rw [if_neg h1, ih h2 (r + 1), add_zero]

theorem listContrib_nodup (k : ℕ) (g : String) :
    ∀ fns : List String, fns.Nodup → ∀ r : ℕ,
      listContrib k r fns g =
        (match firstRank g fns (r + 1) with
         | some j => 1 / ((k : ℚ) + j)
         | none => 0) := by
  intro fns
  induction fns with
  | nil => intro _ r; rfl
  | cons fn rest ih =>
    intro hn r
    rcases List.nodup_cons.mp hn with ⟨hnm, hrest⟩
    show (if fn = g then 1 / ((k : ℚ) + r + 1) else 0) + listContrib k (r + 1) rest g =
      (match (if fn = g then some (r + 1) else firstRank g rest (r + 1 + 1)) with
       | some j => 1 / ((k : ℚ) + j)
       | none => 0)
    by_cases h : fn = g
    · subst h
      have hz : listContrib k (r + 1) rest fn = 0 := listContrib_of_not_mem k fn rest hnm (r + 1)
      rw [if_pos rfl, if_pos rfl, hz, add_zero]
      push_cast
      ring_nf
    · rw [if_neg h, if_neg h, zero_add, ih hrest (r + 1)]

theorem listContrib_eq_rrfContrib {fns : List String} (hn : fns.Nodup)
    (k : ℕ) (g : String) : listContrib k 0 fns g = rrfContrib k fns g := by
  rw [listContrib_nodup k g fns hn 0, rrfContrib]

theorem scoreOf_extrasFold (extras : List (List String × List String))
    (s : List (String × ℚ)) (g : String) :
    scoreOf (extras.foldl
        (fun s pr => addChannelFns 60 pr.2 (addChannelFns 60 pr.1 s)) s) g =
      scoreOf s g +
        (extras.map (fun pr => listContrib 60 0 pr.1 g + listContrib 60 0 pr.2 g)).sum := by
  induction extras generalizing s with
  | nil => simp
  | cons pr rest ih =>
    simp only [List.foldl_cons, List.map_cons, List.sum_cons]
    rw [ih, scoreOf_addChannelFns, scoreOf_addChannelFns]
    ring

/-! ## Stable descending sort -/

theorem perm_insertDescBy {α β : Type} [LinearOrder β] (key : α → β) (x : α) (l : List α) :
    (insertDescBy key x l).Perm (x :: l) := by
  induction l with
  | nil => simp [insertDescBy]
  | cons y ys ih =>
    simp only [insertDescBy]
    by_cases h : key y ≤ key x
    · simp [h]
    · simp only [h, if_false]
      exact (ih.cons y).trans (List.Perm.swap x y ys)

theorem perm_sortDescBy {α β : Type} [LinearOrder β] (key : α → β) (l : List α) :
    (sortDescBy key l).Perm l := by
  induction l with
  | nil => simp [sortDescBy]
  | cons x xs ih =>
    simp only [sortDescBy, List.foldr_cons]
    exact (perm_insertDescBy key x _).trans (ih.cons x)

theorem mem_insertDescBy {α β : Type} [LinearOrder β] {key : α → β} {x z : α} {l : List α} :
    z ∈ insertDescBy key x l ↔ z = x ∨ z ∈ l := by
  constructor
  · intro h
    have := (perm_insertDescBy key x l).mem_iff.mp h
    simpa using this
  · intro h
    refine (perm_insertDescBy key x l).mem_iff.mpr ?_
    simpa using h

theorem pairwise_insertDescBy {α β : Type} [LinearOrder β] {key : α → β} {x : α} {l : List α}
    (h : l.Pairwise (fun a b => key b ≤ key a)) :
    (insertDescBy key x l).Pairwise (fun a b => key b ≤ key a) := by
  induction l with
  | nil => simp [insertDescBy]
  | cons y ys ih =>
    rcases List.pairwise_cons.mp h with ⟨hy, hys⟩
    by_cases hk : key y ≤ key x
    · simp only [insertDescBy, hk, if_true]
      refine List.pairwise_cons.mpr ⟨?_, h⟩
      intro z hz
      rcases List.mem_cons.mp hz with hz | hz
      · subst hz; exact hk
      · exact (hy z hz).trans hk
    · simp only [insertDescBy, hk, if_false]
      refine List.pairwise_cons.mpr ⟨?_, ih hys⟩
      intro z hz
      rcases mem_insertDescBy.mp hz with hz | hz
      · subst hz; exact le_of_lt (lt_of_not_le hk)
      · exact hy z hz

theorem pairwise_sortDescBy {α β : Type} [LinearOrder β] (key : α → β) (l : List α) :
    (sortDescBy key l).Pairwise (fun a b => key b ≤ key a) := by
  induction l with
  | nil => simp [sortDescBy]
  | cons x xs ih => exact pairwise_insertDescBy ih

theorem filter_insertDescBy {α β : Type} [LinearOrder β] (key : α → β) (x : α) (l : List α) (c : β) :
    (insertDescBy key x l).filter (fun e => decide (key e = c)) =
      if key x = c then x :: l.filter (fun e => decide (key e = c))
      else l.filter (fun e => decide (key e = c)) := by
  induction l with
  | nil => by_cases h : key x = c <;> simp [insertDescBy, h]
  | cons y ys ih =>
    simp only [insertDescBy]
    by_cases hk : key y ≤ key x
    · rw [if_pos hk]
      by_cases hx : key x = c
      · rw [if_pos hx]
        simp [List.filter_cons, hx]
      · rw [if_neg hx]
        simp [List.filter_cons, hx]
    · rw [if_neg hk, List.filter_cons]
      by_cases hy : key y = c
      · have hx : ¬ key x = c := fun hxc => hk (le_of_eq (hy.trans hxc.symm))
        rw [ih, if_neg hx, if_neg hx]
        simp [hy, List.filter_cons]
      · rw [ih]
        by_cases hx : key x = c
        · rw [if_pos hx, if_pos hx]
          simp [hy, List.filter_cons]
        · rw [if_neg hx, if_neg hx]
          simp [hy, List.filter_cons]

theorem filter_sortDescBy {α β : Type} [LinearOrder β] (key : α → β) (l : List α) (c : β) :
    (sortDescBy key l).filter (fun e => decide (key e = c)) =
      l.filter (fun e => decide (key e = c)) := by
  induction l with
  | nil => simp [sortDescBy]
  | cons x xs ih =>
    have hfold : List.foldr (insertDescBy key) [] xs = sortDescBy key xs := rfl
    simp only [sortDescBy, List.foldr_cons]
    rw [filter_insertDescBy, hfold, ih, List.filter_cons]
    by_cases h : key x = c <;> simp [h]

/-! ## Deduplication -/

theorem dedupFirstByAux_eq_keepFirst {α : Type} (name : α → String) :
    ∀ (l : List α) (seenF seenN : List String),
      (∀ f ∈ seenF, normalizeFilename f ∈ seenN) →
      dedupFirstByAux name seenF seenN l = keepFirstByNormAux name seenN l := by
  intro l
  induction l with
  | nil => intro seenF seenN _; rfl
  | cons p ps ih =>
    intro seenF seenN hinv
    by_cases hF : name p ∈ seenF
    · have hN : normalizeFilename (name p) ∈ seenN := hinv _ hF
      simp only [dedupFirstByAux, keepFirstByNormAux, hF, hN, if_true]
      exact ih _ _ hinv
    · by_cases hN : normalizeFilename (name p) ∈ seenN
      · simp only [dedupFirstByAux, keepFirstByNormAux, hF, hN, if_true, if_false]
        exact ih _ _ hinv
      · simp only [dedupFirstByAux, keepFirstByNormAux, hF, hN, if_false]
        congr 1
        refine ih _ _ ?_
        intro f hf
        rcases List.mem_cons.mp hf with hf | hf
        · rw [hf]; exact List.mem_cons_self _ _
        · exact List.mem_cons_of_mem _ (hinv _ hf)

theorem dedupPapers_eq_keepFirst (papers : List Paper) :
    dedupPapers papers = keepFirstByNorm Paper.filename papers :=
  dedupFirstByAux_eq_keepFirst Paper.filename papers [] [] (by simp)

theorem keepFirstByNormAux_not_mem_seen {α : Type} {name : α → String} {x : α} :
    ∀ {l : List α} {seen : List String}, x ∈ keepFirstByNormAux name seen l →
      normalizeFilename (name x) ∉ seen := by
  intro l
  induction l with
  | nil => intro seen hx; simp [keepFirstByNormAux] at hx
  | cons p ps ih =>
    intro seen hx
    by_cases hN : normalizeFilename (name p) ∈ seen
    · rw [keepFirstByNormAux, if_pos hN] at hx
      exact ih hx
    · rw [keepFirstByNormAux, if_neg hN] at hx
      rcases List.mem_cons.mp hx with hx | hx
      · subst hx; exact hN
      · intro hmem
        exact ih hx (List.mem_cons_of_mem _ hmem)

theorem keepFirstByNormAux_pairwise {α : Type} (name : α → String)
    (seen : List String) (l : List α) :
    (keepFirstByNormAux name seen l).Pairwise
      (fun a b => normalizeFilename (name a) ≠ normalizeFilename (name b)) := by
  induction l generalizing seen with
  | nil => simp [keepFirstByNormAux]
  | cons p ps ih =>
    by_cases hN : normalizeFilename (name p) ∈ seen
    · rw [keepFirstByNormAux, if_pos hN]; exact ih seen
    · rw [keepFirstByNormAux, if_neg hN]
      refine List.pairwise_cons.mpr ⟨?_, ih _⟩
      intro b hb he
      exact keepFirstByNormAux_not_mem_seen hb (by simp [← he])

theorem keepFirstByNormAux_sublist {α : Type} (name : α → String)
    (seen : List String) (l : List α) :
    (keepFirstByNormAux name seen l).Sublist l := by
  induction l generalizing seen with
  | nil => simp [keepFirstByNormAux]
  | cons p ps ih =>
    by_cases hN : normalizeFilename (name p) ∈ seen
    · rw [keepFirstByNormAux, if_pos hN]
      exact (ih seen).cons p
    · rw [keepFirstByNormAux, if_neg hN]
      exact (ih _).cons₂ p

/-!
# Claims
-/

/-- C5 (confirmed).  After a full rebuild the stored corpus has no two
documents with an identical key and no two with the same normalized key
(leading ordinal prefixes and whitespace stripped); the dedup pass is
first-seen-wins on the priority-ordered input list (local before Zotero,
established before the pass); in particular, for A (priority 1, key
"03-foo.pdf", local) and B (priority 2, key "foo.pdf", Zotero) with equal
normalized keys, only A is retained. -/
theorem c5_dedup_two_tier (papers : List Paper) :
    (dedupPapers papers).Sublist papers
  ∧ (dedupPapers papers).Pairwise (fun a b => a.filename ≠ b.filename)
  ∧ (dedupPapers papers).Pairwise
      (fun a b => normalizeFilename a.filename ≠ normalizeFilename b.filename)
  ∧ dedupPapers papers = keepFirstByNorm Paper.filename papers
  ∧ dedupPapers [{ filename := "03-foo.pdf", source := "local" },
                 { filename := "foo.pdf", source := "zotero" }] =
      [{ filename := "03-foo.pdf", source := "local" }] := by
  have hnorm : (dedupPapers papers).Pairwise
      (fun a b => normalizeFilename a.filename ≠ normalizeFilename b.filename) := by
    rw [dedupPapers_eq_keepFirst]
    exact keepFirstByNormAux_pairwise Paper.filename [] papers
  refine ⟨?_, ?_, hnorm, dedupPapers_eq_keepFirst papers, by decide⟩
  · rw [dedupPapers_eq_keepFirst]
    exact keepFirstByNormAux_sublist Paper.filename [] papers
  · refine hnorm.imp ?_
    intro a b hne he
    exact hne (by rw [he])

/-- C1 counterexample.  The claim's tie-break is false: with the primary
lexical ranking ["b"] and the primary semantic ranking ["a"], both documents
get the same fused score 1/61, yet the final order is ["b", "a"] — the tie is
broken by channel/insertion order, not by document key (key order "a" < "b"
would put "a" first). -/
theorem c1_tiebreak_counterexample :
    (sortDescBy Prod.snd (rrfFuseScores ["b"] ["a"] [] [])).map Prod.fst = ["b", "a"]
  ∧ scoreOf (rrfFuseScores ["b"] ["a"] [] []) "a" =
      scoreOf (rrfFuseScores ["b"] ["a"] [] []) "b"
  ∧ (sortDescBy Prod.snd (rrfFuseScores ["b"] ["a"] [] [])).map Prod.fst ≠ ["a", "b"] := by
  refine ⟨?_, ?_, ?_⟩
  · simp only [rrfFuseScores, addChannelFns, addChannelAux, dictAdd, scoreOf,
      List.foldl, sortDescBy, insertDescBy, List.foldr]
    norm_num
  · simp only [rrfFuseScores, addChannelFns, addChannelAux, dictAdd, scoreOf,
      List.foldl]
    norm_num
  · simp only [rrfFuseScores, addChannelFns, addChannelAux, dictAdd, scoreOf,
      List.foldl, sortDescBy, insertDescBy, List.foldr]
    norm_num
    decide

/-- C1 (corrected).  For every collection of channel rankings (without
repeated documents inside a ranking), every document's fused score is the
sum over the rankings containing it of 1/(k + rank), with k = 60 for the
primary lexical, primary semantic and auxiliary channels and k = 100 for the
cross-lingual channel; absent rankings contribute 0.  The final list is in
descending fused-score order; ties keep the order in which channels first
inserted the documents (primary lexical, then semantic, then cross-lingual,
then auxiliary, each in rank order) — not document-key order. -/
theorem c1_fusion_amended (kw sem en : List String)
    (extras : List (List String × List String))
    (hkw : kw.Nodup) (hsem : sem.Nodup) (hen : en.Nodup)
    (hex : ∀ pr ∈ extras, pr.1.Nodup ∧ pr.2.Nodup) :
    (∀ fn, scoreOf (rrfFuseScores kw sem en extras) fn =
        rrfContrib 60 kw fn + rrfContrib 60 sem fn + rrfContrib 100 en fn +
          (extras.map (fun pr => rrfContrib 60 pr.1 fn + rrfContrib 60 pr.2 fn)).sum)
  ∧ (sortDescBy Prod.snd (rrfFuseScores kw sem en extras)).Pairwise
      (fun a b => b.2 ≤ a.2)
  ∧ (∀ c : ℚ, (sortDescBy Prod.snd (rrfFuseScores kw sem en extras)).filter
        (fun e => decide (e.2 = c)) =
      (rrfFuseScores kw sem en extras).filter (fun e => decide (e.2 = c))) := by
  refine ⟨?_, pairwise_sortDescBy Prod.snd _, fun c => filter_sortDescBy Prod.snd _ c⟩
  intro fn
  show scoreOf (extras.foldl
      (fun s pr => addChannelFns 60 pr.2 (addChannelFns 60 pr.1 s))
      (addChannelFns 100 en (addChannelFns 60 sem (addChannelFns 60 kw [])))) fn = _
  rw [scoreOf_extrasFold, scoreOf_addChannelFns, scoreOf_addChannelFns,
    scoreOf_addChannelFns]
  have h0 : scoreOf [] fn = 0 := rfl
  rw [h0, listContrib_eq_rrfContrib hkw, listContrib_eq_rrfContrib hsem,
    listContrib_eq_rrfContrib hen]
  have hmap : extras.map (fun pr => listContrib 60 0 pr.1 fn + listContrib 60 0 pr.2 fn) =
      extras.map (fun pr => rrfContrib 60 pr.1 fn + rrfContrib 60 pr.2 fn) := by
    refine List.map_congr_left ?_
    intro pr hpr
    rw [listContrib_eq_rrfContrib (hex pr hpr).1, listContrib_eq_rrfContrib (hex pr hpr).2]
  rw [hmap]
  ring

/-! ## Lexical-score characterization -/

theorem scoreFields_fst (tok : String → List String) (p : Paper) (qt et : Finset String) :
    ∀ l : List (String × ℚ), (scoreFields tok p qt et l).1 = specBaseSum tok p qt et l := by
  intro l
  induction l with
  | nil => rfl
  | cons fw rest ih =>
    obtain ⟨f, w⟩ := fw
    simp only [specBaseSum, List.map_cons, List.sum_cons] at ih ⊢
    simp only [scoreFields]
    rw [ih]

theorem scoreFields_matched (tok : String → List String) (p : Paper) (qt et : Finset String) :
    ∀ l : List (String × ℚ), (scoreFields tok p qt et l).2.1 =
      (l.filter (fun fw => decide (fieldExact tok p qt fw.1 ≠ ∅))).map Prod.fst := by
  intro l
  induction l with
  | nil => rfl
  | cons fw rest ih =>
    obtain ⟨f, w⟩ := fw
    simp only [scoreFields, List.filter_cons]
    by_cases hex : fieldExact tok p qt f ≠ ∅
    · simp [hex, ih]
    · simp [hex, ih]

theorem scoreFields_terms (tok : String → List String) (p : Paper) (qt et : Finset String) :
    ∀ l : List (String × ℚ),
      (scoreFields tok p qt et l).2.2 = specMatchedTerms tok p qt et l := by
  intro l
  induction l with
  | nil => rfl
  | cons fw rest ih =>
    obtain ⟨f, w⟩ := fw
    simp only [scoreFields, specMatchedTerms, List.map_cons, List.foldr_cons] at ih ⊢
    rw [ih]

set_option maxHeartbeats 1000000 in
/-- The scorer as the amended closed-form formula (the master lemma for
claims C2, C9 and C10). -/
theorem scorePaperKeyword_eq_amended (tok : String → List String) (p : Paper)
    (qt et : Finset String) :
    (scorePaperKeyword tok p qt et).1 = specLexScoreAmended tok p qt et := by
  simp only [scorePaperKeyword]
  rw [scoreFields_fst, scoreFields_matched, scoreFields_terms]
  simp only [specLexScoreAmended, abstractMult, keywordsMult, diversityMult, covMult,
    specCoverage, specMatchedFieldCount, List.length_map]
  split_ifs <;> ring

theorem specBaseSum_of_noMatch {tok : String → List String} {p : Paper}
    {qt et : Finset String} (h : noFieldMatch tok p qt et) :
    specBaseSum tok p qt et fieldWeights = 0 := by
  unfold specBaseSum
  have : ∀ fw ∈ fieldWeights,
      ((fieldExact tok p qt fw.1).card : ℚ) * fw.2 * 2 +
        ((fieldExpOnly tok p qt et fw.1).card : ℚ) * fw.2 * (1/2) = 0 := by
    intro fw hfw
    rcases h fw hfw with ⟨h1, h2⟩
    rw [h1, h2]
    simp
  rw [List.map_congr_left this]
  simp

/-! ## Keyword-channel membership -/

theorem mem_dedupFirstByAux {α : Type} (name : α → String) :
    ∀ (l : List α) (sF sN : List String) (x : α),
      x ∈ dedupFirstByAux name sF sN l → x ∈ l := by
  intro l
  induction l with
  | nil => intro _ _ x hx; exact absurd hx (by simp [dedupFirstByAux])
  | cons p ps ih =>
    intro sF sN x hx
    by_cases hF : name p ∈ sF
    · rw [dedupFirstByAux, if_pos hF] at hx
      exact List.mem_cons_of_mem _ (ih _ _ _ hx)
    · by_cases hN : normalizeFilename (name p) ∈ sN
      · rw [dedupFirstByAux, if_neg hF, if_pos hN] at hx
        exact List.mem_cons_of_mem _ (ih _ _ _ hx)
      · rw [dedupFirstByAux, if_neg hF, if_neg hN] at hx
        rcases List.mem_cons.mp hx with hx | hx
        · exact hx ▸ List.mem_cons_self _ _
        · exact List.mem_cons_of_mem _ (ih _ _ _ hx)

theorem mem_sortDescBy {α β : Type} [LinearOrder β] (key : α → β) {l : List α} {x : α} :
    x ∈ sortDescBy key l ↔ x ∈ l :=
  (perm_sortDescBy key l).mem_iff

theorem kwScoreOne_eq_some {tok : String → List String} {qt et : Finset String}
    {ff : Option String} {efb : Bool} {p : Paper} {r : KwItem}
    (h : kwScoreOne tok qt et ff efb p = some r) :
    r.paper = p ∧ r.score = (scorePaperKeyword tok p qt et).1 ∧
      0 < (scorePaperKeyword tok p qt et).1 ∧ p.isScannable = false := by
  unfold kwScoreOne at h
  by_cases h1 : (ff.elim false (fun f => !isInfixS f p.folder)) = true
  · rw [if_pos h1] at h; exact absurd h (by simp)
  · rw [if_neg h1] at h
    by_cases h2 : p.isScannable = true
    · rw [if_pos h2] at h; exact absurd h (by simp)
    · rw [if_neg h2] at h
      by_cases h3 : (isInfixS "发明专利" p.filename || isInfixS "专著" p.filename) = true
      · rw [if_pos h3] at h; exact absurd h (by simp)
      · rw [if_neg h3] at h
        by_cases h4 : (efb && isPrefixL "[兜底提取]".data p.abstract.data) = true
        · rw [if_pos h4] at h; exact absurd h (by simp)
        · rw [if_neg h4] at h
          simp only at h
          by_cases h5 : 0 < (scorePaperKeyword tok p qt et).1
          · rw [if_pos h5] at h
            cases Option.some.inj h
            exact ⟨rfl, rfl, h5, by simpa using h2⟩
          · rw [if_neg h5] at h
            exact absurd h (by simp)

theorem mem_keywordSearchFull {tok parse : String → List String} {query : String}
    {papers : List Paper} {topN : ℕ} {ff : Option String} {efb : Bool} {r : KwItem}
    (h : r ∈ (keywordSearchFull tok parse query papers topN ff efb).1) :
    ∃ p ∈ papers,
      kwScoreOne tok (kwQueryTokens parse query) (kwExpanded parse query) ff efb p =
        some r := by
  simp only [keywordSearchFull] at h
  have h1 := List.mem_of_mem_take h
  have h2 := mem_dedupFirstByAux _ _ _ _ _ h1
  have h3 := (mem_sortDescBy KwItem.score).mp h2
  exact List.mem_filterMap.mp h3

/-- C2 counterexample.  The claim's formula applies the coverage bonus
unconditionally; the source guards it by `len(query_tokens) >= 2`.  A
single-token query fully matched on the filename field scores 6 in the code
(1 exact match × weight 3 × 2, no multipliers) but 12 under the claim's
formula (× 2.0 at 100% coverage). -/
theorem c2_coverage_counterexample :
    (scorePaperKeyword (fun _ => [])
        { filename := "runoff.pdf", tokens := [("filename", ["runoff"])] }
        {"runoff"} {"runoff"}).1 = 6
  ∧ specLexScore (fun _ => [])
        { filename := "runoff.pdf", tokens := [("filename", ["runoff"])] }
        {"runoff"} {"runoff"} = 12
  ∧ (scorePaperKeyword (fun _ => [])
        { filename := "runoff.pdf", tokens := [("filename", ["runoff"])] }
        {"runoff"} {"runoff"}).1 ≠
      specLexScore (fun _ => [])
        { filename := "runoff.pdf", tokens := [("filename", ["runoff"])] }
        {"runoff"} {"runoff"} := by
  refine ⟨?_, ?_, ?_⟩
  · simp [scorePaperKeyword, scoreFields, fieldWeights, fieldExact, fieldExpOnly,
      getFieldTokens, dictGet, rawText, List.find?]
    norm_num
  · simp [specLexScore, specBaseSum, specMatchedFieldCount, specMatchedTerms,
      specCoverage, covMult, abstractMult, keywordsMult, diversityMult, fieldWeights,
      fieldExact, fieldExpOnly, getFieldTokens, dictGet, rawText, List.find?]
    norm_num
  · intro he
    have h1 : (scorePaperKeyword (fun _ => [])
        { filename := "runoff.pdf", tokens := [("filename", ["runoff"])] }
        {"runoff"} {"runoff"}).1 = 6 := by
      simp [scorePaperKeyword, scoreFields, fieldWeights, fieldExact, fieldExpOnly,
        getFieldTokens, dictGet, rawText, List.find?]
      norm_num
    have h2 : specLexScore (fun _ => [])
        { filename := "runoff.pdf", tokens := [("filename", ["runoff"])] }
        {"runoff"} {"runoff"} = 12 := by
      simp [specLexScore, specBaseSum, specMatchedFieldCount, specMatchedTerms,
        specCoverage, covMult, abstractMult, keywordsMult, diversityMult, fieldWeights,
        fieldExact, fieldExpOnly, getFieldTokens, dictGet, rawText, List.find?]
      norm_num
    rw [h1, h2] at he
    norm_num at he

/-- C2 (corrected).  The lexical score equals the claim's per-field formula
with one amendment: the coverage bonus applies only when the query has at
least two distinct tokens.  A document with no match in any field (neither
exact nor expansion) scores 0, every returned keyword result has a positive
score, and such a no-match document never appears in the keyword results
for the query that produced those token sets. -/
theorem c2_lexical_score_amended (tok parse : String → List String) (p : Paper)
    (qt et : Finset String) :
    (scorePaperKeyword tok p qt et).1 = specLexScoreAmended tok p qt et
  ∧ (noFieldMatch tok p qt et → (scorePaperKeyword tok p qt et).1 = 0)
  ∧ (∀ (query : String) (papers : List Paper) (topN : ℕ) (ff : Option String)
       (efb : Bool) (r : KwItem),
       r ∈ (keywordSearchFull tok parse query papers topN ff efb).1 →
       0 < r.score ∧
         (noFieldMatch tok r.paper (kwQueryTokens parse query)
            (kwExpanded parse query) → False)) := by
  refine ⟨scorePaperKeyword_eq_amended tok p qt et, ?_, ?_⟩
  · intro h
    rw [scorePaperKeyword_eq_amended]
    unfold specLexScoreAmended
    rw [specBaseSum_of_noMatch h]
    ring
  · intro query papers topN ff efb r hr
    rcases mem_keywordSearchFull hr with ⟨p', _, hsc⟩
    rcases kwScoreOne_eq_some hsc with ⟨hpaper, hscore, hpos, _⟩
    refine ⟨hscore ▸ hpos, ?_⟩
    intro hnm
    have h0 : (scorePaperKeyword tok r.paper (kwQueryTokens parse query)
        (kwExpanded parse query)).1 = 0 := by
      rw [scorePaperKeyword_eq_amended]
      unfold specLexScoreAmended
      rw [specBaseSum_of_noMatch hnm]
      ring
    rw [hpaper] at h0
    rw [h0] at hpos
    exact lt_irrefl 0 hpos

/-- Witness for C2: the amended pieces at a concrete input — the no-match
clause at an empty query, and the formula equality at the counterexample's
document. -/
theorem c2_lexical_score_amended_witness :
    (scorePaperKeyword (fun _ => []) { filename := "x.pdf" } ∅ ∅).1 = 0 :=
  (c2_lexical_score_amended (fun _ => []) (fun _ => []) { filename := "x.pdf" } ∅ ∅).2.1
    (by
      intro fw hfw
      cases h : getFieldTokens (fun _ => []) { filename := "x.pdf" } fw.1 <;>
        simp [fieldExact, fieldExpOnly, h])

/-- C9 (confirmed).  The coverage multiplier needs at least two distinct
query tokens: a single-token (or empty) query's score carries no coverage
factor, regardless of how much of the query the document matches. -/
theorem c9_no_coverage_single_token (tok : String → List String) (p : Paper)
    (qt et : Finset String) (h : qt.card ≤ 1) :
    (scorePaperKeyword tok p qt et).1 = specLexScoreNoCov tok p qt et := by
  rw [scorePaperKeyword_eq_amended]
  unfold specLexScoreAmended specLexScoreNoCov
  rw [if_neg (by omega)]
  ring

/-- Witness for C9: the counterexample document fully matches its
single-token query yet scores exactly the coverage-free formula (6). -/
theorem c9_no_coverage_single_token_witness :
    (scorePaperKeyword (fun _ => [])
        { filename := "runoff.pdf", tokens := [("filename", ["runoff"])] }
        {"runoff"} {"runoff"}).1 =
      specLexScoreNoCov (fun _ => [])
        { filename := "runoff.pdf", tokens := [("filename", ["runoff"])] }
        {"runoff"} {"runoff"} :=
  c9_no_coverage_single_token (fun _ => [])
    { filename := "runoff.pdf", tokens := [("filename", ["runoff"])] }
    {"runoff"} {"runoff"} (by simp)

theorem rawText_set_fpt (p : Paper) (s : String) (field : String)
    (hf : field ≠ "first_pages_text") :
    rawText { p with firstPagesText := s } field = rawText p field := by
  simp only [rawText]
  split_ifs <;> rfl

theorem getFieldTokens_set_fpt (tok : String → List String) (p : Paper)
    (s t : String) (h1 : dictGet p.tokens "first_pages_text" = none)
    (h2 : p.abstract ≠ "" ∨ p.keywords ≠ "") (field : String) :
    getFieldTokens tok { p with firstPagesText := s } field =
      getFieldTokens tok { p with firstPagesText := t } field := by
  have hts : ({ p with firstPagesText := s } : Paper).tokens = p.tokens := rfl
  have htt : ({ p with firstPagesText := t } : Paper).tokens = p.tokens := rfl
  by_cases hf : field = "first_pages_text"
  · subst hf
    rcases h2 with h2 | h2 <;> simp [getFieldTokens, hts, htt, h1, h2]
  · simp only [getFieldTokens, hts, htt]
    cases hd : dictGet p.tokens field with
    | some ts => rfl
    | none =>
      have hns : ¬ (field = "first_pages_text" ∧
          (({ p with firstPagesText := s } : Paper).abstract ≠ "" ∨
           ({ p with firstPagesText := s } : Paper).keywords ≠ "")) :=
        fun hc => hf hc.1
      have hnt : ¬ (field = "first_pages_text" ∧
          (({ p with firstPagesText := t } : Paper).abstract ≠ "" ∨
           ({ p with firstPagesText := t } : Paper).keywords ≠ "")) :=
        fun hc => hf hc.1
      rw [if_neg hns, if_neg hnt, rawText_set_fpt p s field hf,
        rawText_set_fpt p t field hf]

theorem scoreFields_congr {tok : String → List String} {p1 p2 : Paper}
    (qt et : Finset String)
    (h : ∀ field, getFieldTokens tok p1 field = getFieldTokens tok p2 field) :
    ∀ l : List (String × ℚ), scoreFields tok p1 qt et l = scoreFields tok p2 qt et l := by
  intro l
  induction l with
  | nil => rfl
  | cons fw rest ih =>
    obtain ⟨f, w⟩ := fw
    simp only [scoreFields, fieldExact, fieldExpOnly, h, ih]

/-- C10 (confirmed).  For a document whose precomputed token map has no
`first_pages_text` entry (the builder never precomputes one) and which has a
non-empty abstract or keywords field, the content of `first_pages_text` has
no effect on the lexical score, matched fields or matched terms. -/
theorem c10_first_pages_gate (tok : String → List String) (p : Paper)
    (qt et : Finset String) (s t : String)
    (h1 : dictGet p.tokens "first_pages_text" = none)
    (h2 : p.abstract ≠ "" ∨ p.keywords ≠ "") :
    scorePaperKeyword tok { p with firstPagesText := s } qt et =
      scorePaperKeyword tok { p with firstPagesText := t } qt et := by
  have hsf := scoreFields_congr qt et (getFieldTokens_set_fpt tok p s t h1 h2) fieldWeights
  simp only [scorePaperKeyword]
  rw [hsf]

/-- Witness for C10: a document with an abstract scores identically whether
its first-page text holds a matching term or is empty. -/
theorem c10_first_pages_gate_witness :
    scorePaperKeyword (fun q => if q = "fp" then ["secret"] else [])
        { ({ filename := "x.pdf", abstract := "abs" } : Paper) with
          firstPagesText := "fp" } {"secret"} {"secret"} =
      scorePaperKeyword (fun q => if q = "fp" then ["secret"] else [])
        { ({ filename := "x.pdf", abstract := "abs" } : Paper) with
          firstPagesText := "" } {"secret"} {"secret"} :=
  c10_first_pages_gate (fun q => if q = "fp" then ["secret"] else [])
    { filename := "x.pdf", abstract := "abs" } {"secret"} {"secret"} "fp" ""
    rfl (Or.inl (by decide))

/-! ## Longest-match translation: tie-order invariance -/

theorem isPrefixL_eq_of_length :
    ∀ {t p q : List Char}, isPrefixL p t = true → isPrefixL q t = true →
      p.length = q.length → p = q := by
  intro t
  induction t with
  | nil =>
    intro p q hp hq _
    cases p with
    | nil =>
      cases q with
      | nil => rfl
      | cons qh qt => exact absurd hq (by simp [isPrefixL])
    | cons ph pt => exact absurd hp (by simp [isPrefixL])
  | cons c cs ih =>
    intro p q hp hq hl
    cases p with
    | nil =>
      cases q with
      | nil => rfl
      | cons qh qt => exact absurd hl (by simp)
    | cons ph pt =>
      cases q with
      | nil => exact absurd hl (by simp)
      | cons qh qt =>
        simp only [isPrefixL, Bool.and_eq_true, decide_eq_true_eq] at hp hq
        obtain ⟨hp1, hp2⟩ := hp
        obtain ⟨hq1, hq2⟩ := hq
        subst hp1
        subst hq1
        simp only [List.length_cons, Nat.add_right_cancel_iff] at hl
        rw [ih hp2 hq2 hl]

theorem find?_sorted_max {l : List (List Char × String)} {t : List Char}
    {kv : List Char × String}
    (hs : l.Pairwise (fun a b => b.1.length ≤ a.1.length))
    (h : l.find? (fun e => !e.1.isEmpty && isPrefixL e.1 t) = some kv) :
    kv ∈ l ∧ (!kv.1.isEmpty && isPrefixL kv.1 t) = true ∧
      ∀ e ∈ l, (!e.1.isEmpty && isPrefixL e.1 t) = true →
        e.1.length ≤ kv.1.length := by
  induction l with
  | nil => exact absurd h (by simp)
  | cons y ys ih =>
    rcases List.pairwise_cons.mp hs with ⟨hy, hys⟩
    by_cases hp : (!y.1.isEmpty && isPrefixL y.1 t) = true
    · simp only [List.find?_cons, hp] at h
      cases Option.some.inj h
      refine ⟨List.mem_cons_self _ _, hp, ?_⟩
      intro e he _
      rcases List.mem_cons.mp he with rfl | he
      · exact le_refl _
      · exact hy e he
    · have hpf : (!y.1.isEmpty && isPrefixL y.1 t) = false := by
        revert hp
        cases (!y.1.isEmpty && isPrefixL y.1 t) <;> simp
      simp only [List.find?_cons, hpf] at h
      rcases ih hys h with ⟨h1, h2, h3⟩
      refine ⟨List.mem_cons_of_mem _ h1, h2, ?_⟩
      intro e he hpe
      rcases List.mem_cons.mp he with rfl | he
      · exact absurd hpe hp
      · exact h3 e he hpe

theorem keyNodup_value_unique {γ δ : Type} [DecidableEq γ] :
    ∀ {l : List (γ × δ)}, (l.map Prod.fst).Nodup →
      ∀ {k : γ} {v1 v2 : δ}, (k, v1) ∈ l → (k, v2) ∈ l → v1 = v2 := by
  intro l
  induction l with
  | nil => intro _ k v1 v2 h1; exact absurd h1 (by simp)
  | cons e es ih =>
    intro hn k v1 v2 h1 h2
    rw [List.map_cons, List.nodup_cons] at hn
    rcases List.mem_cons.mp h1 with h1 | h1 <;> rcases List.mem_cons.mp h2 with h2 | h2
    · exact congrArg Prod.snd (h1.trans h2.symm)
    · exfalso
      apply hn.1
      have hk : k ∈ es.map Prod.fst := List.mem_map_of_mem Prod.fst h2
      rw [← h1]
      exact hk
    · exfalso
      apply hn.1
      have hk : k ∈ es.map Prod.fst := List.mem_map_of_mem Prod.fst h1
      rw [← h2]
      exact hk
    · exact ih hn.2 h1 h2

theorem perm_insertLexAscBy {α : Type} (key : α → List Char) (x : α) (l : List α) :
    (insertLexAscBy key x l).Perm (x :: l) := by
  induction l with
  | nil => simp [insertLexAscBy]
  | cons y ys ih =>
    simp only [insertLexAscBy]
    by_cases h : lexLe (key x) (key y) = true
    · simp [h]
    · simp only [h, if_false]
      exact (ih.cons y).trans (List.Perm.swap x y ys)

theorem perm_sortLexAscBy {α : Type} (key : α → List Char) (l : List α) :
    (sortLexAscBy key l).Perm l := by
  induction l with
  | nil => simp [sortLexAscBy]
  | cons x xs ih =>
    simp only [sortLexAscBy, List.foldr_cons]
    exact (perm_insertLexAscBy key x _).trans (ih.cons x)

theorem cnToEnTable_keys_nodup : (cnToEnTable.map Prod.fst).Nodup := by decide

theorem wordMatchStep_eq_of {l1 l2 : List (List Char × String)}
    (hp1 : l1.Perm cnToEnTable) (hp2 : l2.Perm cnToEnTable)
    (hs1 : l1.Pairwise (fun a b => b.1.length ≤ a.1.length))
    (hs2 : l2.Pairwise (fun a b => b.1.length ≤ a.1.length)) (t : List Char) :
    wordMatchStep l1 t = wordMatchStep l2 t := by
  unfold wordMatchStep
  cases e1 : l1.find? (fun kv => !kv.1.isEmpty && isPrefixL kv.1 t) with
  | none =>
    cases e2 : l2.find? (fun kv => !kv.1.isEmpty && isPrefixL kv.1 t) with
    | none => rfl
    | some kv2 =>
      rcases find?_sorted_max hs2 e2 with ⟨m2, p2, _⟩
      have hmem : kv2 ∈ l1 := hp1.mem_iff.mpr (hp2.mem_iff.mp m2)
      exact absurd p2 (by simpa using List.find?_eq_none.mp e1 kv2 hmem)
  | some kv1 =>
    rcases find?_sorted_max hs1 e1 with ⟨m1, p1, max1⟩
    cases e2 : l2.find? (fun kv => !kv.1.isEmpty && isPrefixL kv.1 t) with
    | none =>
      have hmem : kv1 ∈ l2 := hp2.mem_iff.mpr (hp1.mem_iff.mp m1)
      exact absurd p1 (by simpa using List.find?_eq_none.mp e2 kv1 hmem)
    | some kv2 =>
      rcases find?_sorted_max hs2 e2 with ⟨m2, p2, max2⟩
      have hm1' : kv1 ∈ l2 := hp2.mem_iff.mpr (hp1.mem_iff.mp m1)
      have hm2' : kv2 ∈ l1 := hp1.mem_iff.mpr (hp2.mem_iff.mp m2)
      have hlen : kv1.1.length = kv2.1.length :=
        le_antisymm (max2 kv1 hm1' p1) (max1 kv2 hm2' p2)
      simp only [Bool.and_eq_true] at p1 p2
      rcases p1 with ⟨_, hpre1⟩
      rcases p2 with ⟨_, hpre2⟩
      have hkey : kv1.1 = kv2.1 := isPrefixL_eq_of_length hpre1 hpre2 hlen
      have ht1 : (kv1.1, kv1.2) ∈ cnToEnTable := by
        have := hp1.mem_iff.mp m1
        simpa using this
      have ht2 : (kv1.1, kv2.2) ∈ cnToEnTable := by
        have h' : kv2 ∈ cnToEnTable := hp2.mem_iff.mp m2
        rw [hkey]
        simpa using h'
      have hv : kv1.2 = kv2.2 := keyNodup_value_unique cnToEnTable_keys_nodup ht1 ht2
      rw [show kv1 = kv2 from Prod.ext hkey hv]

theorem wordMatchStep_decl_lex (t : List Char) :
    wordMatchStep wordKeysDecl t = wordMatchStep wordKeysLex t := by
  refine wordMatchStep_eq_of (perm_sortDescBy _ _)
    ((perm_sortDescBy _ _).trans (perm_sortLexAscBy _ _)) ?_ ?_ t
  · exact pairwise_sortDescBy (fun kv => kv.1.length) cnToEnTable
  · exact pairwise_sortDescBy (fun kv => kv.1.length) (sortLexAscBy (fun kv => kv.1) cnToEnTable)

theorem wordLoopAux_decl_lex :
    ∀ (fuel : ℕ) (t : List Char) (parts : List String) (tc : ℕ),
      wordLoopAux wordKeysDecl fuel t parts tc = wordLoopAux wordKeysLex fuel t parts tc := by
  intro fuel
  induction fuel with
  | zero => intro t parts tc; rfl
  | succ n ih =>
    intro t parts tc
    cases t with
    | nil => rfl
    | cons c cs =>
      simp only [wordLoopAux, wordMatchStep_decl_lex (c :: cs)]
      cases wordMatchStep wordKeysLex (c :: cs) with
      | some kv => simp only [ih]
      | none =>
        by_cases hw : ((c :: cs).takeWhile isEnAlpha).isEmpty
        · simp only [hw, if_true, ih]
        · simp only [hw, if_false, ih]

/-- C7 counterexample.  The whole-query (phrase/template) table's ties are
observable and the source breaks them by declaration order, not
lexicographic order: the normalized query 气候 is contained in the two
length-10 template keys 气候因子对物候的影响 (declared earlier) and
气候变化对植被的影响 (lexicographically smaller); the source returns the
former's translation, while the claim's lexicographic tie-break would
return the latter's. -/
theorem c7_template_tiebreak_counterexample :
    translateQuery "气候" = "climate temperature precipitation phenology"
  ∧ translateQueryLexTies "气候" = "climate change vegetation response"
  ∧ translateQuery "气候" ≠ translateQueryLexTies "气候" := by
  refine ⟨by decide, by decide, by decide⟩

/-- C7 (corrected).  Term-by-term (word-level) translation resolves by
longest match and is independent of how equal-length keys are ordered: two
distinct keys of the same length cannot both match at one position, so the
declaration-order tie-break the source uses and the lexicographic tie-break
the claim demands produce identical translations — word-level translation is
deterministic and reproducible.  (The phrase/template table of
`_translate_query` is the exception recorded in the counterexample: there
ties are broken by declaration order and are observable.) -/
theorem c7_wordlevel_tie_invariance (q : String) :
    translateWordlevel q = translateWordlevelLexTies q := by
  unfold translateWordlevel translateWordlevelLexTies translateWordlevelWith wordPartsWith
  rw [wordLoopAux_decl_lex]

/-! ## The cross-lingual coverage gate -/

/-- C3 (confirmed).  For a query whose normalized form still contains CJK
characters, if the word-level translation covers less than half of them the
translation is discarded ('' is returned) and the cross-lingual lexical
channel of `hybrid_search` is empty, contributing 0 to every document's
fused score. -/
theorem c3_crosslingual_gate (q : String) (h1 : 0 < totalCnChars q)
    (h2 : 2 * translatedChars q < totalCnChars q) :
    translateWordlevel q = ""
  ∧ ∀ (tok : String → List String) (papers : List Paper) (ff : Option String)
      (efb : Bool),
      crossLingualResults tok q papers ff efb = []
    ∧ ∀ fn, rrfContrib 100
        ((crossLingualResults tok q papers ff efb).map (fun it => it.paper.filename))
        fn = 0 := by
  have htr : translateWordlevel q = "" := by
    unfold translateWordlevel translateWordlevelWith
    exact if_pos ⟨h1, h2⟩
  have hcn : isChineseQuery q = true := by
    unfold totalCnChars at h1
    obtain ⟨c, hc, hcjk⟩ := List.countP_pos_iff.mp h1
    have hmem : c ∈ q.data := List.mem_of_mem_filter hc
    unfold isChineseQuery
    exact List.any_eq_true.mpr ⟨c, hmem, hcjk⟩
  refine ⟨htr, ?_⟩
  intro tok papers ff efb
  have hcr : crossLingualResults tok q papers ff efb = [] := by
    unfold crossLingualResults
    rw [if_pos hcn]
    simp [htr]
  refine ⟨hcr, fun fn => ?_⟩
  rw [hcr]
  rfl

/-- Witness for C3: the query 森林猫猫猫 has 5 CJK characters of which the
word-level pass translates exactly 2 (森林 → forest), i.e. 40% coverage:
the translation is discarded and the cross-lingual channel is empty. -/
theorem c3_crosslingual_gate_witness :
    translateWordlevel "森林猫猫猫" = ""
  ∧ crossLingualResults (fun _ => []) "森林猫猫猫" [] none false = [] := by
  have h := c3_crosslingual_gate "森林猫猫猫" (by decide) (by decide)
  exact ⟨h.1, (h.2 (fun _ => []) [] none false).1⟩

/-- Witness for C1: the amended fused-score formula evaluated at the
counterexample input. -/
theorem c1_fusion_amended_witness :
    scoreOf (rrfFuseScores ["b"] ["a"] [] []) "a" =
      rrfContrib 60 ["b"] "a" + rrfContrib 60 ["a"] "a" + rrfContrib 100 [] "a" +
        (([] : List (List String × List String)).map
          (fun pr => rrfContrib 60 pr.1 "a" + rrfContrib 60 pr.2 "a")).sum :=
  (c1_fusion_amended ["b"] ["a"] [] [] (by decide) (by decide) (by decide)
    (by intro pr hpr; cases hpr)).1 "a"

/-! ### C4: the similarity reported by the semantic channel -/

/-- An English query translates to itself, so only one semantic query runs. -/
theorem semQ_en : semanticQueries "runoff" = ["runoff"] := by decide

/-- 径流 translates non-trivially, so two semantic queries run. -/
theorem semQ_cn : semanticQueries "径流" = ["径流", "phenology runoff streamflow discharge"] := by
  decide

/-- A successful last-wins lookup returns a member of the list with the
looked-up key. -/
theorem lookupLastBy_mem {α : Type} (name : α → String) (l : List α) (fn : String) (x : α)
    (h : lookupLastBy name l fn = some x) : x ∈ l ∧ name x = fn := by
  unfold lookupLastBy at h
  refine ⟨List.mem_reverse.mp (List.mem_of_find?_eq_some h), ?_⟩
  have := List.find?_some h
  simpa using this

/-- Concrete evaluation of the semantic channel on a one-paper corpus; used to
instantiate the C4 amended theorem. -/
theorem semCore_small_eval :
    semanticSearchCore (fun _ => [(1 : ℚ)]) { filenames := ["a"], embeddings := [[1]] }
      [{ filename := "a" }] "runoff" 50 none = [(1, { filename := "a" })] := by
  have h1 : isInfixS "发明专利" "a" = false := by decide
  have h2 : isInfixS "专著" "a" = false := by decide
  simp only [semanticSearchCore, semanticRankings, semQ_en, List.map_cons, List.map_nil,
    embRows, List.zip_cons_cons, List.zip_nil_right, dotQ, buildRanking, buildRankingAux,
    sortDescBy, insertDescBy, List.foldr, semSkip, fnToPaper, fnToEmb, lookupLastBy,
    firstDedup, rrf30, List.find?, List.filter, List.any_cons, List.any_nil,
    List.reverse_cons, List.reverse_nil, List.filterMap, List.take, List.flatten, h1, h2]
  norm_num [firstDedup, insertDescBy, List.find?, List.filterMap, List.take]

/-- C4, counterexample: with papers a, b, embeddings chosen so that b is below
the 0.1 similarity floor for the primary (untranslated) query 径流 but ranks
first for the translated query, the primary ranking is [("a", 1)] (b is absent
from it), yet b still enters the fused output and its reported similarity is
its raw primary-query dot product 1/20, not the 0 the claim requires for a
document absent from the primary ranking. -/
theorem c4_primary_sim_counterexample :
    semanticRankings
        (fun s => if s = "径流" then [(1 : ℚ), 0]
                  else if s = "phenology runoff streamflow discharge" then [0, 1] else [0, 0])
        { filenames := ["a", "b"], embeddings := [[1, 0], [1/20, 1]] }
        [{ filename := "a" }, { filename := "b" }] "径流" none
      = [[("a", 1)], [("b", 1)]] ∧
    semanticSearchCore
        (fun s => if s = "径流" then [(1 : ℚ), 0]
                  else if s = "phenology runoff streamflow discharge" then [0, 1] else [0, 0])
        { filenames := ["a", "b"], embeddings := [[1, 0], [1/20, 1]] }
        [{ filename := "a" }, { filename := "b" }] "径流" 50 none
      = [(1, { filename := "a" }), (1/20, { filename := "b" })] ∧
    ((1 : ℚ)/20) ≠ 0 := by
  have h1 : isInfixS "发明专利" "a" = false := by decide
  have h2 : isInfixS "专著" "a" = false := by decide
  have h3 : isInfixS "发明专利" "b" = false := by decide
  have h4 : isInfixS "专著" "b" = false := by decide
  have e1 : (decide (("b" : String) = "a")) = false := by decide
  have e2 : (decide (("a" : String) = "a")) = true := by decide
  have e3 : (decide (("a" : String) = "b")) = false := by decide
  have e4 : (decide (("b" : String) = "b")) = true := by decide
  have e5 : ("phenology runoff streamflow discharge" : String) ≠ "径流" := by decide
  have ht : translateQuery "径流" = "phenology runoff streamflow discharge" := by decide
  have n1 : ("b" : String) ≠ "a" := by decide
  have n2 : ("a" : String) ≠ "b" := by decide
  refine ⟨?_, ?_, by norm_num⟩ <;>
  · simp only [semanticSearchCore, semanticRankings, semQ_cn, List.map_cons, List.map_nil,
      embRows, List.zip_cons_cons, List.zip_nil_right, List.zip_nil_left, dotQ,
      buildRanking, buildRankingAux, sortDescBy, insertDescBy, List.foldr, semSkip,
      fnToPaper, fnToEmb, lookupLastBy, firstDedup, rrf30, List.find?, List.filter,
      List.any_cons, List.any_nil, List.reverse_cons, List.reverse_nil, List.filterMap,
      List.take, List.flatten, List.zipWith_cons_cons, List.zipWith_nil_right,
      List.sum_cons, List.sum_nil, h1, h2, h3, h4, e1, e2, e3, e4, e5, ht, n1, n2]
    norm_num [buildRankingAux, semSkip, fnToPaper, fnToEmb, embRows, dotQ, lookupLastBy,
      firstDedup, insertDescBy, rrf30, List.find?, List.filterMap, List.take, List.filter,
      List.any_cons, List.any_nil, List.reverse_cons, List.reverse_nil, List.zipWith_cons_cons,
      List.zipWith_nil_right, List.sum_cons, List.sum_nil, Function.comp,
      h1, h2, h3, h4, e1, e2, e3, e4, e5, ht, n1, n2]

/-- C4, amended: for every result of the semantic channel, the reported
similarity is the raw dot product of the document's embedding with the
primary (untranslated) query's embedding — whether or not the document
appears in the primary ranking (it is 0 only when the document has no
embedding at all). -/
theorem c4_semantic_sim_amended (encode : String → List ℚ) (idx : EmbIndex)
    (papers : List Paper) (query : String) (topN : ℕ) (ff : Option String)
    (r : ℚ × Paper) (hr : r ∈ semanticSearchCore encode idx papers query topN ff) :
    r.1 = (fnToEmb idx r.2.filename).elim 0 (fun v => dotQ v (encode query)) := by
  simp only [semanticSearchCore] at hr
  have hr' := List.mem_of_mem_take hr
  rcases List.mem_filterMap.mp hr' with ⟨fn, _hfn, hmap⟩
  rcases Option.map_eq_some'.mp hmap with ⟨p, hp, hpr⟩
  have hpfn : p.filename = fn :=
    (lookupLastBy_mem Paper.filename papers fn p (by simpa [fnToPaper] using hp)).2
  rw [← hpr]
  simp only
  rw [hpfn]

/-- Witness for C4: the amended similarity equation instantiated on the
concrete one-paper corpus. -/
theorem c4_semantic_sim_amended_witness :
    ((1 : ℚ), ({ filename := "a" } : Paper)).1 =
      (fnToEmb { filenames := ["a"], embeddings := [[(1 : ℚ)]] }
          (((1 : ℚ), ({ filename := "a" } : Paper)).2.filename)).elim 0
        (fun v => dotQ v ((fun _ => [(1 : ℚ)]) "runoff")) :=
  c4_semantic_sim_amended (fun _ => [(1 : ℚ)]) { filenames := ["a"], embeddings := [[1]] }
    [{ filename := "a" }] "runoff" 50 none (1, { filename := "a" })
    (by rw [semCore_small_eval]; exact List.mem_singleton.mpr rfl)

/-! ### C6: non-retrievable and error-marked documents -/


theorem mem_dictSet {β : Type} : ∀ {d : List (String × β)} {k : String} {v : β}
    {kv : String × β}, kv ∈ dictSet d k v → kv ∈ d ∨ kv = (k, v) := by
  intro d
  induction d with
  | nil => intro k v kv h; simp [dictSet] at h; exact Or.inr h
  | cons e es ih =>
    intro k v kv h
    by_cases he : e.1 = k
    · rw [dictSet, if_pos he] at h
      rcases List.mem_cons.mp h with h | h
      · exact Or.inr h
      · exact Or.inl (List.mem_cons_of_mem _ h)
    · rw [dictSet, if_neg he] at h
      rcases List.mem_cons.mp h with h | h
      · exact Or.inl (h ▸ List.mem_cons_self _ _)
      · rcases ih h with h | h
        · exact Or.inl (List.mem_cons_of_mem _ h)
        · exact Or.inr h

theorem mem_dictSetD {β : Type} : ∀ {d : List (String × β)} {k : String} {v : β}
    {kv : String × β}, kv ∈ dictSetD d k v → kv ∈ d ∨ kv = (k, v) := by
  intro d
  induction d with
  | nil => intro k v kv h; simp [dictSetD] at h; exact Or.inr h
  | cons e es ih =>
    intro k v kv h
    by_cases he : e.1 = k
    · rw [dictSetD, if_pos he] at h
      exact Or.inl h
    · rw [dictSetD, if_neg he] at h
      rcases List.mem_cons.mp h with h | h
      · exact Or.inl (h ▸ List.mem_cons_self _ _)
      · rcases ih h with h | h
        · exact Or.inl (List.mem_cons_of_mem _ h)
        · exact Or.inr h

theorem dictGet_mem {β : Type} {d : List (String × β)} {fn : String} {e : β}
    (h : dictGet d fn = some e) : (fn, e) ∈ d := by
  unfold dictGet at h
  rcases Option.map_eq_some'.mp h with ⟨x, hx, hxe⟩
  have hmem := List.mem_of_find?_eq_some hx
  have hp := List.find?_some hx
  have h1 : x.1 = fn := by simpa using hp
  have : (fn, e) = x := by
    obtain ⟨x1, x2⟩ := x
    simp only at h1 hxe
    rw [h1, hxe]
  rw [this]; exact hmem

theorem foldl_pred {γ δ : Type} (Q : δ → Prop) (f : δ → γ → δ) :
    ∀ (l : List γ) (d : δ), Q d → (∀ d x, x ∈ l → Q d → Q (f d x)) → Q (l.foldl f d) := by
  intro l
  induction l with
  | nil => intro d hd _; exact hd
  | cons x xs ih =>
    intro d hd hf
    exact ih (f d x) (hf d x (List.mem_cons_self _ _) hd)
      (fun d' y hy hd' => hf d' y (List.mem_cons_of_mem _ hy) hd')

theorem provData_scannable (kwItems : List KwItem) (semPairs : List (ℚ × Paper))
    (enItems : List KwItem) (extra : List (List KwItem × List (ℚ × Paper)))
    (hkw : ∀ it ∈ kwItems, it.paper.isScannable = false)
    (hsem : ∀ pr ∈ semPairs, pr.2.isScannable = false)
    (hen : ∀ it ∈ enItems, it.paper.isScannable = false)
    (hex : ∀ pr ∈ extra, (∀ it ∈ pr.1, it.paper.isScannable = false) ∧
      (∀ p2 ∈ pr.2, p2.2.isScannable = false)) :
    ∀ kv ∈ provData kwItems semPairs enItems extra, kv.2.paper.isScannable = false := by
  unfold provData
  set Q : List (String × ProvEntry) → Prop :=
    fun d => ∀ kv ∈ d, kv.2.paper.isScannable = false with hQ
  show Q _
  apply foldl_pred
  · apply foldl_pred
    · apply foldl_pred
      · apply foldl_pred
        · intro kv h; cases h
        · intro d it hit hd kv hkv
          rcases mem_dictSet hkv with h | h
          · exact hd kv h
          · rw [h]; exact hkw it hit
      · intro d pr hpr hd kv hkv
        rcases mem_dictSetD hkv with h | h
        · exact hd kv h
        · rw [h]; exact hsem pr hpr
    · intro d it hit hd kv hkv
      rcases mem_dictSetD hkv with h | h
      · exact hd kv h
      · rw [h]; exact hen it hit
  · intro d pr hpr hd
    apply foldl_pred
    · apply foldl_pred
      · exact hd
      · intro db it hit hdb kv hkv
        rcases mem_dictSetD hkv with h | h
        · exact hdb kv h
        · rw [h]; exact (hex pr hpr).1 it hit
    · intro da p2 hp2 hda kv hkv
      rcases mem_dictSetD hkv with h | h
      · exact hda kv h
      · rw [h]; exact (hex pr hpr).2 p2 hp2

theorem keywordSearchFull_not_scannable (tok parse : String → List String)
    (query : String) (papers : List Paper) (topN : ℕ) (ff : Option String) (efb : Bool) :
    ∀ r ∈ (keywordSearchFull tok parse query papers topN ff efb).1,
      r.paper.isScannable = false := by
  intro r hr
  rcases mem_keywordSearchFull hr with ⟨p, _, hsc⟩
  rcases kwScoreOne_eq_some hsc with ⟨hp, _, _, hscan⟩
  rw [hp]; exact hscan

theorem mem_firstDedup : ∀ {l : List String} {fn : String}, fn ∈ firstDedup l → fn ∈ l := by
  intro l
  induction l using firstDedup.induct with
  | case1 => intro fn h; rw [firstDedup] at h; cases h
  | case2 a t ih =>
    intro fn h
    rw [firstDedup] at h
    rcases List.mem_cons.mp h with h | h
    · exact h ▸ List.mem_cons_self _ _
    · exact List.mem_cons_of_mem _ (List.mem_of_mem_filter (ih h))

theorem buildRankingAux_not_skip (papers : List Paper) (ff : Option String) :
    ∀ (sims : List (String × ℚ)) (rank : ℕ) (fn : String),
      fn ∈ (buildRankingAux papers ff sims rank).map Prod.fst →
        semSkip papers ff fn = false := by
  intro sims
  induction sims with
  | nil => intro rank fn h; simp [buildRankingAux] at h
  | cons e rest ih =>
    intro rank fn h
    by_cases h1 : (semSkip papers ff e.1 || (fnToPaper papers e.1).isNone) = true
    · rw [buildRankingAux, if_pos h1] at h
      exact ih _ _ h
    · rw [buildRankingAux, if_neg h1] at h
      by_cases h2 : e.2 < 1/10
      · rw [if_pos h2] at h; cases h
      · rw [if_neg h2] at h
        simp only [List.map_cons, List.mem_cons] at h
        rcases h with h | h
        · rw [h]
          simp only [Bool.or_eq_true, not_or] at h1
          exact Bool.of_not_eq_true h1.1
        · exact ih _ _ h

theorem semanticSearchCore_not_scannable (encode : String → List ℚ) (idx : EmbIndex)
    (papers : List Paper) (query : String) (topN : ℕ) (ff : Option String) :
    ∀ pr ∈ semanticSearchCore encode idx papers query topN ff,
      pr.2.isScannable = false := by
  intro pr hpr
  simp only [semanticSearchCore] at hpr
  have h1 := List.mem_of_mem_take hpr
  rcases List.mem_filterMap.mp h1 with ⟨fn, hfn, hmap⟩
  rcases Option.map_eq_some'.mp hmap with ⟨p, hp, hppr⟩
  have hpm := lookupLastBy_mem Paper.filename papers fn p (by simpa [fnToPaper] using hp)
  -- fn is in the fused filename list, hence in some per-query ranking
  rcases List.mem_map.mp hfn with ⟨pair, hpair, hpairfn⟩
  have hscored := (mem_sortDescBy Prod.snd).mp hpair
  rcases List.mem_map.mp hscored with ⟨fn', hfn', hfn'eq⟩
  have hfn2 : fn ∈ firstDedup
      (((semanticRankings encode idx papers query ff).map
        (fun rk => rk.map Prod.fst)).flatten) := by
    rw [← hpairfn, ← hfn'eq]
    exact hfn'
  have hfn3 := mem_firstDedup hfn2
  rcases List.mem_flatten.mp hfn3 with ⟨l', hl', hfnl'⟩
  rcases List.mem_map.mp hl' with ⟨rk, hrk, hrkeq⟩
  rcases List.mem_map.mp hrk with ⟨q, _, hqeq⟩
  have hskip : semSkip papers ff fn = false := by
    apply buildRankingAux_not_skip papers ff _ 0 fn
    rw [← hqeq] at hrkeq
    simp only [buildRanking] at hrkeq
    rw [hrkeq]
    exact hfnl'
  -- the looked-up paper has filename fn and is in papers, so it is not skipped
  have hall : ∀ p' ∈ papers, (decide (p'.filename = fn) &&
      (p'.isScannable || isInfixS "发明专利" p'.filename || isInfixS "专著" p'.filename ||
       ff.elim false (fun f => !isInfixS f p'.folder))) = false := by
    intro p' hp'
    have := hskip
    unfold semSkip at this
    rw [List.any_eq_false] at this
    exact Bool.of_not_eq_true (this p' hp')
  have hpfalse := hall p hpm.1
  rw [hpm.2] at hpfalse
  simp only [decide_eq_true_eq, Bool.and_eq_false_iff, Bool.or_eq_false_iff] at hpfalse
  rw [← hppr]
  rcases hpfalse with h | h
  · exact absurd h (by simp)
  · exact h.1.1.1

theorem crossLingualResults_not_scannable (tok : String → List String) (query : String)
    (papers : List Paper) (ff : Option String) (efb : Bool) :
    ∀ r ∈ crossLingualResults tok query papers ff efb,
      r.paper.isScannable = false := by
  intro r hr
  unfold crossLingualResults at hr
  by_cases h1 : isChineseQuery query = true
  · rw [if_pos h1] at hr
    simp only at hr
    by_cases h2 : translateWordlevel query ≠ "" ∧ stripStr (translateWordlevel query) ≠ ""
    · rw [if_pos h2] at hr
      exact keywordSearchFull_not_scannable _ _ _ _ _ _ _ r hr
    · rw [if_neg h2] at hr; cases hr
  · rw [if_neg h1] at hr; cases hr

theorem hybridAllItems_not_scannable (tok parse : String → List String)
    (encode : String → List ℚ) (idx : EmbIndex) (papers : List Paper)
    (query : String) (ff : Option String) (efb : Bool) (extraQueries : List String) :
    ∀ r ∈ hybridAllItems tok parse encode idx papers query ff efb extraQueries,
      r.paper.isScannable = false := by
  intro r hr
  simp only [hybridAllItems, hybridChannels] at hr
  rcases List.mem_map.mp hr with ⟨fn, _, hbuild⟩
  have hpd := provData_scannable
    (keywordSearchFull tok parse query papers 200 ff efb).1
    (semanticSearchCore encode idx papers query 200 ff)
    (crossLingualResults tok query papers ff efb)
    (hybridExtraChannels tok parse encode idx papers ff efb extraQueries)
    (keywordSearchFull_not_scannable tok parse query papers 200 ff efb)
    (semanticSearchCore_not_scannable encode idx papers query 200 ff)
    (crossLingualResults_not_scannable tok query papers ff efb)
    (by
      intro pr hpr
      unfold hybridExtraChannels at hpr
      rcases List.mem_map.mp hpr with ⟨eq, _, heq⟩
      constructor
      · intro it hit
        rw [← heq] at hit
        exact keywordSearchFull_not_scannable tok parse eq papers 200 ff efb it hit
      · intro p2 hp2
        rw [← heq] at hp2
        exact semanticSearchCore_not_scannable encode idx papers eq 200 ff p2 hp2)
  rw [← hbuild]
  rcases hget : dictGet (provData (keywordSearchFull tok parse query papers 200 ff efb).1
      (semanticSearchCore encode idx papers query 200 ff)
      (crossLingualResults tok query papers ff efb)
      (hybridExtraChannels tok parse encode idx papers ff efb extraQueries)) fn with _ | e
  · simp [buildHybridItem, hget, defaultEntry]
  · simp only [buildHybridItem, hget, Option.getD_some]
    exact hpd (fn, e) (dictGet_mem hget)

theorem hybridSearchCore_not_scannable (tok parse : String → List String)
    (encode : String → List ℚ) (idx : EmbIndex) (papers : List Paper)
    (query : String) (topN : ℕ) (ff : Option String) (efb : Bool)
    (extraQueries : List String) :
    ∀ r ∈ (hybridSearchCore tok parse encode idx papers query topN ff efb extraQueries).1,
      r.paper.isScannable = false := by
  intro r hr
  exact hybridAllItems_not_scannable tok parse encode idx papers query ff efb extraQueries r
    (List.mem_of_mem_take hr)

theorem findSimilarCore_not_scannable (tok parse : String → List String)
    (encode : String → List ℚ) (idx : EmbIndex) (papers : List Paper)
    (queryName : String) (topN : ℕ) :
    ∀ r ∈ (findSimilarCore tok parse encode idx papers queryName topN).1,
      r.paper.isScannable = false := by
  intro r hr
  unfold findSimilarCore at hr
  rcases hres : resolveTarget queryName papers with _ | target
  · rw [hres] at hr; cases hr
  · rw [hres] at hr
    simp only at hr
    have h1 := List.mem_of_mem_take hr
    have h2 := List.mem_of_mem_filter h1
    exact hybridSearchCore_not_scannable tok parse encode idx papers
      (similarSearchText target) (topN + 1) none false [] r h2

/-- C6, amended half: documents flagged non-retrievable (`is_scannable`) never
appear in any channel's result list — keyword, semantic, cross-lingual,
hybrid fusion, or similarity recommendation. -/
theorem c6_scannable_all_channels (tok parse : String → List String)
    (encode : String → List ℚ) (idx : EmbIndex) (papers : List Paper)
    (query queryName : String) (topN : ℕ) (ff : Option String) (efb : Bool)
    (extraQueries : List String) :
    ((keywordSearchFull tok parse query papers topN ff efb).1.all
        (fun r => !r.paper.isScannable)) = true
  ∧ ((semanticSearchCore encode idx papers query topN ff).all
        (fun pr => !pr.2.isScannable)) = true
  ∧ ((crossLingualResults tok query papers ff efb).all
        (fun r => !r.paper.isScannable)) = true
  ∧ (((hybridSearchCore tok parse encode idx papers query topN ff efb extraQueries).1.all
        (fun r => !r.paper.isScannable)) = true)
  ∧ (((findSimilarCore tok parse encode idx papers queryName topN).1.all
        (fun r => !r.paper.isScannable)) = true) := by
  refine ⟨?_, ?_, ?_, ?_, ?_⟩ <;> rw [List.all_eq_true] <;> intro r hr
  · simp [keywordSearchFull_not_scannable tok parse query papers topN ff efb r hr]
  · simp [semanticSearchCore_not_scannable encode idx papers query topN ff r hr]
  · simp [crossLingualResults_not_scannable tok query papers ff efb r hr]
  · simp [hybridSearchCore_not_scannable tok parse encode idx papers query topN ff efb
      extraQueries r hr]
  · simp [findSimilarCore_not_scannable tok parse encode idx papers queryName topN r hr]

/-- C6, counterexample: the extraction-error marker is never consulted by any
query channel.  A document stored with `error = "boom"` but with indexable
tokens is returned by keyword search. -/
theorem c6_error_marker_counterexample :
    ((keywordSearchFull (fun _ => []) (fun _ => ["zzz"]) "zzz"
        [{ filename := "zzz.pdf", error := some "boom",
           tokens := [("filename", ["zzz"])] }] 50 none false).1.map (fun it => it.paper))
      = [{ filename := "zzz.pdf", error := some "boom", tokens := [("filename", ["zzz"])] }]
  ∧ ({ filename := "zzz.pdf", error := some "boom",
       tokens := [("filename", ["zzz"])] } : Paper).error = some "boom" := by
  have hlow : lowerStr "zzz" = "zzz" := by decide
  have hqt : kwQueryTokens (fun _ => ["zzz"]) "zzz" = {"zzz"} := by
    simp [kwQueryTokens, hlow]
  have heo : ∀ et : Finset String, (et \ ({"zzz"} : Finset String)) ∩ {"zzz"} = ∅ := by
    intro et
    apply Finset.eq_empty_of_forall_not_mem
    intro x hx
    rcases Finset.mem_inter.mp hx with ⟨hx1, hx2⟩
    exact (Finset.mem_sdiff.mp hx1).2 hx2
  refine ⟨?_, rfl⟩
  simp [keywordSearchFull, hqt, kwScoreOne, scorePaperKeyword,
    scoreFields, fieldWeights, fieldExact, fieldExpOnly, getFieldTokens, dictGet,
    rawText, List.find?, heo, sortDescBy, insertDescBy, dedupFirstBy, dedupFirstByAux,
    List.take, isInfixS, isInfixL, isPrefixL, List.filterMap_cons, List.filterMap_nil,
    Option.elim]

/-! ### C8: the similarity recommender excludes its target -/


theorem mem_keys_dictAdd : ∀ {d : List (String × ℚ)} {k : String} {v : ℚ} {x : String},
    x ∈ (dictAdd d k v).map Prod.fst → x ∈ d.map Prod.fst ∨ x = k := by
  intro d
  induction d with
  | nil => intro k v x h; simp [dictAdd] at h; exact Or.inr h
  | cons e es ih =>
    intro k v x h
    by_cases he : e.1 = k
    · rw [dictAdd, if_pos he] at h
      simp only [List.map_cons, List.mem_cons] at h ⊢
      exact Or.inl h
    · rw [dictAdd, if_neg he] at h
      simp only [List.map_cons, List.mem_cons] at h ⊢
      rcases h with h | h
      · exact Or.inl (Or.inl h)
      · rcases ih h with h | h
        · exact Or.inl (Or.inr h)
        · exact Or.inr h

theorem dictAdd_keys_nodup : ∀ {d : List (String × ℚ)} {k : String} {v : ℚ},
    (d.map Prod.fst).Nodup → ((dictAdd d k v).map Prod.fst).Nodup := by
  intro d
  induction d with
  | nil => intro k v _; simp [dictAdd]
  | cons e es ih =>
    intro k v h
    rw [List.map_cons, List.nodup_cons] at h
    by_cases he : e.1 = k
    · rw [dictAdd, if_pos he]
      simp only [List.map_cons, List.nodup_cons]
      exact h
    · rw [dictAdd, if_neg he]
      simp only [List.map_cons, List.nodup_cons]
      refine ⟨?_, ih h.2⟩
      intro hmem
      rcases mem_keys_dictAdd hmem with hm | hm
      · exact h.1 hm
      · exact he hm

theorem addChannelAux_keys_nodup (k : ℕ) :
    ∀ (fns : List String) (rank : ℕ) (s : List (String × ℚ)),
      (s.map Prod.fst).Nodup → ((addChannelAux k fns rank s).map Prod.fst).Nodup := by
  intro fns
  induction fns with
  | nil => intro rank s h; exact h
  | cons fn rest ih =>
    intro rank s h
    rw [addChannelAux]
    exact ih _ _ (dictAdd_keys_nodup h)

theorem rrfFuseScores_keys_nodup (kwFns semFns enFns : List String)
    (extraFns : List (List String × List String)) :
    ((rrfFuseScores kwFns semFns enFns extraFns).map Prod.fst).Nodup := by
  unfold rrfFuseScores
  exact foldl_pred (fun s => (s.map Prod.fst).Nodup)
    (fun s pr => addChannelFns 60 pr.2 (addChannelFns 60 pr.1 s)) extraFns
    (addChannelFns 100 enFns (addChannelFns 60 semFns (addChannelFns 60 kwFns [])))
    (addChannelAux_keys_nodup 100 enFns 0 _
      (addChannelAux_keys_nodup 60 semFns 0 _
        (addChannelAux_keys_nodup 60 kwFns 0 [] (by simp))))
    (fun s pr _ hs =>
      addChannelAux_keys_nodup 60 pr.2 0 _ (addChannelAux_keys_nodup 60 pr.1 0 _ hs))

theorem provData_filenames (kwItems : List KwItem) (semPairs : List (ℚ × Paper))
    (enItems : List KwItem) (extra : List (List KwItem × List (ℚ × Paper))) :
    ∀ kv ∈ provData kwItems semPairs enItems extra, kv.2.paper.filename = kv.1 := by
  unfold provData
  set Q : List (String × ProvEntry) → Prop :=
    fun d => ∀ kv ∈ d, kv.2.paper.filename = kv.1 with hQ
  show Q _
  apply foldl_pred
  · apply foldl_pred
    · apply foldl_pred
      · apply foldl_pred
        · intro kv h; cases h
        · intro d it _ hd kv hkv
          rcases mem_dictSet hkv with h | h
          · exact hd kv h
          · rw [h]
      · intro d pr _ hd kv hkv
        rcases mem_dictSetD hkv with h | h
        · exact hd kv h
        · rw [h]
    · intro d it _ hd kv hkv
      rcases mem_dictSetD hkv with h | h
      · exact hd kv h
      · rw [h]
  · intro d pr _ hd
    apply foldl_pred
    · apply foldl_pred
      · exact hd
      · intro db it _ hdb kv hkv
        rcases mem_dictSetD hkv with h | h
        · exact hdb kv h
        · rw [h]
    · intro da p2 _ hda kv hkv
      rcases mem_dictSetD hkv with h | h
      · exact hda kv h
      · rw [h]

theorem buildHybridItem_filename (scores : List (String × ℚ))
    (data : List (String × ProvEntry)) (kwItems : List KwItem)
    (semPairs allSem : List (ℚ × Paper)) (fn : String)
    (hdata : ∀ kv ∈ data, kv.2.paper.filename = kv.1) :
    (buildHybridItem scores data kwItems semPairs allSem fn).paper.filename = fn := by
  rcases hget : dictGet data fn with _ | e
  · simp [buildHybridItem, hget, defaultEntry]
  · simp only [buildHybridItem, hget, Option.getD_some]
    exact hdata (fn, e) (dictGet_mem hget)

theorem hybridAllItems_filenames (tok parse : String → List String)
    (encode : String → List ℚ) (idx : EmbIndex) (papers : List Paper)
    (query : String) (ff : Option String) (efb : Bool) (extraQueries : List String) :
    (hybridAllItems tok parse encode idx papers query ff efb extraQueries).map
        (fun r => r.paper.filename) =
      (sortDescBy Prod.snd
        (hybridScoresOf tok parse encode idx papers query ff efb extraQueries)).map
        Prod.fst := by
  simp only [hybridAllItems, hybridChannels, List.map_map]
  apply List.map_congr_left
  intro pr _
  simp only [Function.comp]
  exact buildHybridItem_filename _ _ _ _ _ pr.1
    (provData_filenames _ _ _ _)

theorem hybridAllItems_filenames_nodup (tok parse : String → List String)
    (encode : String → List ℚ) (idx : EmbIndex) (papers : List Paper)
    (query : String) (ff : Option String) (efb : Bool) (extraQueries : List String) :
    ((hybridAllItems tok parse encode idx papers query ff efb extraQueries).map
        (fun r => r.paper.filename)).Nodup := by
  rw [hybridAllItems_filenames]
  have hperm : ((sortDescBy Prod.snd
      (hybridScoresOf tok parse encode idx papers query ff efb extraQueries)).map
        Prod.fst).Perm
      ((hybridScoresOf tok parse encode idx papers query ff efb extraQueries).map
        Prod.fst) :=
    (perm_sortDescBy Prod.snd _).map Prod.fst
  rw [hperm.nodup_iff]
  simp only [hybridScoresOf]
  exact rrfFuseScores_keys_nodup _ _ _ _

theorem countP_filename_le_one (K : String) :
    ∀ l : List HybridItem, (l.map (fun r => r.paper.filename)).Nodup →
      l.countP (fun r => r.paper.filename = K) ≤ 1 := by
  intro l
  induction l with
  | nil => intro _; simp
  | cons x xs ih =>
    intro h
    rw [List.map_cons, List.nodup_cons] at h
    rw [List.countP_cons]
    by_cases hx : x.paper.filename = K
    · have hz : xs.countP (fun r => r.paper.filename = K) = 0 := by
        rw [List.countP_eq_zero]
        intro y hy
        simp only [decide_eq_true_eq]
        intro hk
        exact h.1 (hx ▸ hk ▸ List.mem_map_of_mem (fun r => r.paper.filename) hy)
      simp [hz, hx]
    · simp [hx, ih h.2]

theorem filter_take_one_miss {α : Type} (p : α → Bool) :
    ∀ (l : List α) (n : ℕ), l.countP (fun x => !p x) ≤ 1 →
      ((l.take (n + 1)).filter p).take n = (l.filter p).take n := by
  intro l
  induction l with
  | nil => intro n _; simp
  | cons x xs ih =>
    intro n hc
    rw [List.countP_cons] at hc
    by_cases hp : p x = true
    · rw [List.take_succ_cons, List.filter_cons_of_pos hp, List.filter_cons_of_pos hp]
      cases n with
      | zero => simp
      | succ m =>
        rw [List.take_succ_cons, List.take_succ_cons]
        have hc' : xs.countP (fun x => !p x) ≤ 1 := by
          refine le_trans ?_ hc
          exact Nat.le_add_right _ _
        rw [ih m hc']
    · have hall : ∀ y ∈ xs, p y = true := by
        have h1 : (!p x) = true := by simp [hp]
        rw [h1, if_pos rfl] at hc
        have h0 : xs.countP (fun x => !p x) = 0 := by omega
        rw [List.countP_eq_zero] at h0
        intro y hy
        have := h0 y hy
        simpa using this
      rw [List.take_succ_cons, List.filter_cons_of_neg (by simpa using hp),
        List.filter_cons_of_neg (by simpa using hp)]
      rw [List.filter_eq_self.mpr hall, List.filter_eq_self.mpr (fun y hy => hall y (List.mem_of_mem_take hy))]
      rw [List.take_take]
      simp [Nat.min_comm]


/-- C8: once the similarity recommender resolves a target, the result list is
the full fused ranking with the target's own key filtered out and then
truncated to `top_n` (the code fetches `top_n + 1` fused results, which by the
key-uniqueness of the fused ranking is equivalent to filtering the whole
ranking first); in particular no result carries the target's key. -/
theorem c8_target_excluded (tok parse : String → List String)
    (encode : String → List ℚ) (idx : EmbIndex) (papers : List Paper)
    (queryName : String) (topN : ℕ) (target : Paper)
    (h : resolveTarget queryName papers = some target) :
    (findSimilarCore tok parse encode idx papers queryName topN).1 =
      ((hybridAllItems tok parse encode idx papers (similarSearchText target)
          none false []).filter
        (fun r => r.paper.filename ≠ target.filename)).take topN
  ∧ ∀ r ∈ (findSimilarCore tok parse encode idx papers queryName topN).1,
      r.paper.filename ≠ target.filename := by
  have heq : (findSimilarCore tok parse encode idx papers queryName topN).1 =
      (((hybridAllItems tok parse encode idx papers (similarSearchText target)
          none false []).take (topN + 1)).filter
        (fun r => r.paper.filename ≠ target.filename)).take topN := by
    unfold findSimilarCore
    rw [h]
    simp only [hybridSearchCore]
  constructor
  · rw [heq]
    apply filter_take_one_miss
    have hcong : (fun (r : HybridItem) => !(decide (r.paper.filename ≠ target.filename))) =
        (fun r => decide (r.paper.filename = target.filename)) := by
      funext r
      by_cases hr : r.paper.filename = target.filename <;> simp [hr]
    rw [hcong]
    exact countP_filename_le_one target.filename
      (hybridAllItems tok parse encode idx papers (similarSearchText target) none false [])
      (hybridAllItems_filenames_nodup tok parse encode idx papers
        (similarSearchText target) none false [])
  · intro r hr
    rw [heq] at hr
    have h1 := List.mem_of_mem_take hr
    have h2 := List.of_mem_filter h1
    simpa using h2

/-- Witness for C8: a one-paper corpus where the target resolves; the result
list (empty here) is the filtered-then-truncated fused ranking and contains no
entry with the target's key. -/
theorem c8_target_excluded_witness :
    ((findSimilarCore (fun _ => []) (fun _ => []) (fun _ => [])
        { filenames := [], embeddings := [] } [{ filename := "a.pdf" }] "a" 1).1 =
      ((hybridAllItems (fun _ => []) (fun _ => []) (fun _ => [])
          { filenames := [], embeddings := [] } [{ filename := "a.pdf" }]
          (similarSearchText { filename := "a.pdf" }) none false []).filter
        (fun r => r.paper.filename ≠ ({ filename := "a.pdf" } : Paper).filename)).take 1)
  ∧ ∀ r ∈ (findSimilarCore (fun _ => []) (fun _ => []) (fun _ => [])
        { filenames := [], embeddings := [] } [{ filename := "a.pdf" }] "a" 1).1,
      r.paper.filename ≠ ({ filename := "a.pdf" } : Paper).filename :=
  c8_target_excluded _ _ _ _ _ _ 1 { filename := "a.pdf" } (by decide)

end PaperSearch
